import Mathlib

/-!
Verification of the packling PAK container codec.

This file gives a shallow embedding, in Lean, of the core of the
packling repository (a codec for the "KCAP" game-asset container
format), and proves or refutes the frozen specification claims about
it.

Conventions of the embedding:
- bytes are natural numbers (meaningful values are < 256), byte buffers
  are lists of naturals;
- 32-bit machine arithmetic is modelled as arithmetic on naturals with
  explicit reduction modulo 2^32 wherever the Rust code wraps;
- the external lz4 block compressor and decompressor are modelled as
  abstract function parameters, since their internals never matter to
  the claims;
- the XXTEA block cipher invoked through the xxtea_nostd crate is
  embedded directly (little-endian 32-bit words, the crate follows the
  Ma Bingyao formulation of the mixing function, with the z shifted
  left by 4 in the second term); the embedding is validated below
  against the byte-exact test vectors from src/encryption.rs;
- filesystem effects of unpacking are modelled as an explicit list of
  write events, in program order.
-/

set_option maxRecDepth 100000

/-! ## 32-bit arithmetic helpers -/

/-- 2^32, the modulus of all wrapping 32-bit arithmetic. -/
def M32 : Nat := 4294967296

/-! ## Cipher core (src/encryption.rs and the xxtea_nostd crate) -/

/-- Size in bytes of encryption chunks (XXTEA_CHUNK_SIZE = 0x2000). -/
def XXTEA_CHUNK_SIZE : Nat := 8192

/-- The XXTEA round constant 0x9e3779b9. -/
def XXTEA_DELTA : Nat := 2654435769

/-- Little-endian packing of bytes into 32-bit words, four bytes per
word; leftover bytes (fewer than four) are dropped.  The cipher only
ever applies this to buffers whose length is a multiple of four. -/
def bytesToWords : List Nat → List Nat
  | b0 :: b1 :: b2 :: b3 :: rest => (b0 + 256 * b1 + 65536 * b2 + 16777216 * b3) :: bytesToWords rest
  | _ => []

/-- Little-endian unpacking of 32-bit words back into bytes. -/
def wordsToBytes : List Nat → List Nat
  | [] => []
  | w :: rest => w % 256 :: w / 256 % 256 :: w / 65536 % 256 :: w / 16777216 % 256 :: wordsToBytes rest

/-- The XXTEA mixing function MX, as implemented by the xxtea_nostd
crate: ((z >> 5 xor y << 2) + (y >> 3 xor z << 4)) xor
((sum xor y) + (key[(p and 3) xor e] xor z)), all additions and shifts
wrapping at 32 bits. -/
def mx (k : List Nat) (sum e p z y : Nat) : Nat :=
  (((z / 32 ^^^ (y * 4) % M32) + (y / 8 ^^^ (z * 16) % M32)) % M32) ^^^
    (((sum ^^^ y) + (k.getD ((p % 4) ^^^ e) 0 ^^^ z)) % M32)

/-- One forward (encrypting) XXTEA update of the word at index `p`:
it is incremented by MX of its two cyclic neighbours. -/
def encStepF (k : List Nat) (sum e n : Nat) (w : List Nat) (p : Nat) : List Nat :=
  w.set p ((w.getD p 0 + mx k sum e p (w.getD ((p + n - 1) % n) 0) (w.getD ((p + 1) % n) 0)) % M32)

/-- One backward (decrypting) XXTEA update of the word at index `p`:
it is decremented (mod 2^32) by MX of its two cyclic neighbours. -/
def decStepF (k : List Nat) (sum e n : Nat) (p : Nat) (w : List Nat) : List Nat :=
  w.set p ((w.getD p 0 + (M32 - mx k sum e p (w.getD ((p + n - 1) % n) 0) (w.getD ((p + 1) % n) 0) % M32)) % M32)

/-- One full forward XXTEA round at accumulator value `sum`: the words
are updated in index order 0, 1, ..., n-1. -/
def encRound (k : List Nat) (n sum : Nat) (w : List Nat) : List Nat :=
  (List.range n).foldl (encStepF k sum (sum / 4 % 4) n) w

/-- One full backward XXTEA round at accumulator value `sum`: the words
are updated in index order n-1, ..., 1, 0. -/
def decRound (k : List Nat) (n sum : Nat) (w : List Nat) : List Nat :=
  (List.range n).foldr (decStepF k sum (sum / 4 % 4) n) w

/-- Number of XXTEA rounds for an n-word block. -/
def xxteaRounds (n : Nat) : Nat := 6 + 52 / n

/-- XXTEA encryption of a block of 32-bit words with a 16-byte key.
Blocks of fewer than two words are returned unchanged (the PAK chunk
loop never passes such blocks). -/
def xxteaEncryptWords (keyBytes : List Nat) (v : List Nat) : List Nat :=
  if v.length < 2 then v
  else
    (List.range (xxteaRounds v.length)).foldl
      (fun w r => encRound (bytesToWords keyBytes) v.length ((r + 1) * XXTEA_DELTA % M32) w) v

/-- XXTEA decryption of a block of 32-bit words with a 16-byte key. -/
def xxteaDecryptWords (keyBytes : List Nat) (v : List Nat) : List Nat :=
  if v.length < 2 then v
  else
    (List.range (xxteaRounds v.length)).foldr
      (fun r w => decRound (bytesToWords keyBytes) v.length ((r + 1) * XXTEA_DELTA % M32) w) v

/-- The djb2a string hash of the djb2 crate: seed 5381 and, for each
byte, multiply by 33 (wrapping at 32 bits) then XOR the byte in. -/
def djb2a (name : List Nat) : Nat :=
  name.foldl (fun h c => h * 33 % M32 ^^^ c) 5381

/-- One iteration of the key-masking loop of generate_key: byte k of
the i-th 4-byte word of the key is ANDed with byte k of the mask,
little-endian, for k in 0..4. -/
def maskKeyWord (mask : Nat) (key : List Nat) (i : Nat) : List Nat :=
  let k0 := key.set (i * 4) (key.getD (i * 4) 0 &&& mask % 256)
  let k1 := k0.set (i * 4 + 1) (k0.getD (i * 4 + 1) 0 &&& mask / 256 % 256)
  let k2 := k1.set (i * 4 + 2) (k1.getD (i * 4 + 2) 0 &&& mask / 65536 % 256)
  k2.set (i * 4 + 3) (k2.getD (i * 4 + 3) 0 &&& mask / 16777216 % 256)

/-- PAK per-chunk key generation (src/encryption.rs, generate_key):
mask = length XOR chunk_offset XOR djb2a(name), and every 4-byte word
of the fixed key is ANDed bytewise against the mask, little-endian. -/
def generate_key (name : List Nat) (length chunk_offset : Nat) (fixed_key : List Nat) : List Nat :=
  let mask := length ^^^ chunk_offset ^^^ djb2a name
  (List.range 4).foldl (maskKeyWord mask) fixed_key

/-- Usable size of a chunk: min(remaining, 0x2000) rounded down to a
multiple of 4 (the Rust expression (rem).min(0x2000) & !3). -/
def usableChunk (rem : Nat) : Nat := min rem XXTEA_CHUNK_SIZE / 4 * 4

/-- The chunk loop shared by encrypt and decrypt in src/encryption.rs.
Chunks of 0x2000 bytes are processed in order; each chunk uses a key
derived from the name, the total data length and the chunk offset; a
chunk whose usable size is at most 4 stops all processing, leaving the
remainder of the buffer untouched.  The fuel argument only bounds the
recursion; callers pass enough for it never to run out. -/
def cipherChunks (enc : Bool) (name fixed_key : List Nat) (data_len : Nat) :
    Nat → Nat → List Nat → List Nat
  | 0, _, rest => rest
  | fuel + 1, chunk_start, rest =>
    if rest.length = 0 then []
    else
      let chunk_size := usableChunk rest.length
      if chunk_size ≤ 4 then rest
      else
        let key := generate_key name (data_len % M32) (chunk_start % M32) fixed_key
        let words := bytesToWords (rest.take chunk_size)
        let tw := if enc then xxteaEncryptWords key words else xxteaDecryptWords key words
        wordsToBytes tw ++
          cipherChunks enc name fixed_key data_len fuel (chunk_start + XXTEA_CHUNK_SIZE) (rest.drop chunk_size)

/-- Encrypt a blob of PAK data (src/encryption.rs, encrypt). -/
def encrypt (name key data : List Nat) : List Nat :=
  cipherChunks true name key data.length (data.length + 1) 0 data

/-- Decrypt a blob of PAK data (src/encryption.rs, decrypt). -/
def decrypt (name key data : List Nat) : List Nat :=
  cipherChunks false name key data.length (data.length + 1) 0 data

/-! Validation of the cipher embedding against the byte-exact unit
test vectors of src/encryption.rs (TEST_KEY, name "test"). -/

/-- The 16-byte test key from the encryption.rs unit tests. -/
def TEST_KEY : List Nat :=
  [166, 66, 178, 122, 225, 218, 158, 18, 206, 12, 97, 53, 215, 92, 237, 104]

/-- The name "test" as bytes. -/
def testName : List Nat := [116, 101, 115, 116]

example : encrypt testName TEST_KEY [] = [] := by decide
example : encrypt testName TEST_KEY [49] = [49] := by decide
example : encrypt testName TEST_KEY [49, 50, 51, 52] = [49, 50, 51, 52] := by decide
example : encrypt testName TEST_KEY [49, 50, 51, 52, 53, 54, 55] = [49, 50, 51, 52, 53, 54, 55] := by
  decide
example :
    encrypt testName TEST_KEY [49, 50, 51, 52, 53, 54, 55, 56] =
      [243, 103, 175, 145, 129, 107, 200, 152] := by decide
example :
    encrypt testName TEST_KEY [49, 50, 51, 52, 53, 54, 55, 56, 57] =
      [236, 129, 189, 218, 149, 233, 194, 213, 57] := by decide
example :
    encrypt testName TEST_KEY [49, 50, 51, 52, 53, 54, 55, 56, 57, 48] =
      [90, 150, 128, 122, 48, 254, 243, 25, 57, 48] := by decide
example :
    encrypt testName TEST_KEY [49, 50, 51, 52, 53, 54, 55, 56, 57, 48, 49] =
      [117, 218, 244, 34, 199, 191, 1, 129, 57, 48, 49] := by decide
example :
    decrypt testName TEST_KEY [243, 103, 175, 145, 129, 107, 200, 152] =
      [49, 50, 51, 52, 53, 54, 55, 56] := by decide
example :
    decrypt testName TEST_KEY [117, 218, 244, 34, 199, 191, 1, 129, 57, 48, 49] =
      [49, 50, 51, 52, 53, 54, 55, 56, 57, 48, 49] := by decide

/-! ## Generic machinery: cancelling a left fold by a right fold -/

/-- A predicate preserved by every step of a left fold is preserved by
the whole fold. -/
theorem foldl_preserves {α β : Type} (P : α → Prop) (f : α → β → α) (l : List β)
    (hf : ∀ w b, P w → b ∈ l → P (f w b)) : ∀ w, P w → P (l.foldl f w) := by
  induction l with
  | nil => intro w hw; exact hw
  | cons b t ih =>
    intro w hw
    exact ih (fun w c hwc hc => hf w c hwc (List.mem_cons_of_mem _ hc)) _
      (hf w b hw (List.mem_cons_self _ _))

/-- If `g b` undoes `f · b` on every state satisfying an invariant `P`
that `f` preserves, then folding `g` from the right undoes folding `f`
from the left over the same list. -/
theorem foldr_foldl_cancel {α β : Type} (P : α → Prop) (f : α → β → α) (g : β → α → α)
    (l : List β) (hpres : ∀ w b, P w → b ∈ l → P (f w b))
    (hcan : ∀ w b, P w → b ∈ l → g b (f w b) = w) :
    ∀ w, P w → l.foldr g (l.foldl f w) = w := by
  induction l with
  | nil => intro w _; rfl
  | cons b t ih =>
    intro w hw
    have hb : b ∈ b :: t := List.mem_cons_self _ _
    simp only [List.foldl_cons, List.foldr_cons]
    rw [ih (fun w c hwc hc => hpres w c hwc (List.mem_cons_of_mem _ hc))
        (fun w c hwc hc => hcan w c hwc (List.mem_cons_of_mem _ hc))
        (f w b) (hpres w b hw hb)]
    exact hcan w b hw hb

/-! ## List getD and set helpers -/

theorem getD_set_ne (l : List Nat) (i j a : Nat) (h : i ≠ j) :
    (l.set i a).getD j 0 = l.getD j 0 := by
  rw [List.getD_eq_getElem?_getD, List.getD_eq_getElem?_getD, List.getElem?_set_ne h]

theorem getD_set_self (l : List Nat) (i a : Nat) (h : i < l.length) :
    (l.set i a).getD i 0 = a := by
  rw [List.getD_eq_getElem?_getD, List.getElem?_set_eq_of_lt a h]
  rfl

theorem set_getD_self (l : List Nat) (i : Nat) (h : i < l.length) :
    l.set i (l.getD i 0) = l := by
  induction l generalizing i with
  | nil => rfl
  | cons a t ih =>
    cases i with
    | zero => rfl
    | succ j =>
      have hj : j < t.length := by simpa using h
      have hgd : (a :: t).getD (j + 1) 0 = t.getD j 0 := by
        simp [List.getD_eq_getElem?_getD]
      rw [hgd]
      show a :: t.set j (t.getD j 0) = a :: t
      rw [ih j hj]

theorem getD_lt_of_mem (l : List Nat) (i : Nat) (h : i < l.length) (hlt : ∀ x ∈ l, x < M32) :
    l.getD i 0 < M32 := by
  rw [List.getD_eq_getElem (l := l) (d := 0) h]
  exact hlt _ (List.getElem_mem h)

/-! ## Cyclic neighbour indices are distinct for blocks of two or more -/

theorem succ_mod_ne (n p : Nat) (hn : 2 ≤ n) (hp : p < n) : (p + 1) % n ≠ p := by
  rcases Nat.lt_or_ge (p + 1) n with h | h
  · rw [Nat.mod_eq_of_lt h]; omega
  · have hpn : p + 1 = n := by omega
    rw [hpn, Nat.mod_self]; omega

theorem pred_mod_ne (n p : Nat) (hn : 2 ≤ n) (hp : p < n) : (p + n - 1) % n ≠ p := by
  rcases Nat.eq_zero_or_pos p with rfl | hpos
  · have h1 : 0 + n - 1 = n - 1 := by omega
    rw [h1, Nat.mod_eq_of_lt (by omega)]
    omega
  · have h1 : p + n - 1 = (p - 1) + n := by omega
    rw [h1, Nat.add_mod_right, Nat.mod_eq_of_lt (by omega)]
    omega

/-! ## XXTEA round-level inversion -/

theorem mx_lt (k : List Nat) (sum e p z y : Nat) : mx k sum e p z y < M32 := by
  have hM : M32 = 2 ^ 32 := by norm_num [M32]
  unfold mx
  rw [hM]
  exact Nat.xor_lt_two_pow (hM ▸ Nat.mod_lt _ (by norm_num [M32]))
    (hM ▸ Nat.mod_lt _ (by norm_num [M32]))

theorem encStepF_length (k : List Nat) (sum e n : Nat) (w : List Nat) (p : Nat) :
    (encStepF k sum e n w p).length = w.length := by
  unfold encStepF; exact List.length_set w p _

theorem encStepF_allLt (k : List Nat) (sum e n : Nat) (w : List Nat) (p : Nat)
    (h : ∀ x ∈ w, x < M32) : ∀ x ∈ encStepF k sum e n w p, x < M32 := by
  intro x hx
  rcases List.mem_or_eq_of_mem_set hx with hx | rfl
  · exact h x hx
  · exact Nat.mod_lt _ (by decide)

theorem dec_enc_step (k : List Nat) (sum e n : Nat) (w : List Nat) (p : Nat)
    (hn : 2 ≤ n) (hlen : w.length = n) (hlt : ∀ x ∈ w, x < M32) (hp : p < n) :
    decStepF k sum e n p (encStepF k sum e n w p) = w := by
  have hpl : p < w.length := by omega
  have h1 : p ≠ (p + n - 1) % n := (pred_mod_ne n p hn hp).symm
  have h2 : p ≠ (p + 1) % n := (succ_mod_ne n p hn hp).symm
  unfold encStepF decStepF
  rw [getD_set_ne _ _ _ _ h1, getD_set_ne _ _ _ _ h2, getD_set_self _ _ _ hpl, List.set_set]
  have hx : w.getD p 0 < M32 := getD_lt_of_mem w p hpl hlt
  have hfinal :
      ((w.getD p 0 + mx k sum e p (w.getD ((p + n - 1) % n) 0) (w.getD ((p + 1) % n) 0)) % M32 +
        (M32 - mx k sum e p (w.getD ((p + n - 1) % n) 0) (w.getD ((p + 1) % n) 0) % M32)) % M32 =
        w.getD p 0 := by
    have hM : M32 = 4294967296 := rfl
    set x := w.getD p 0 with hxdef
    set m := mx k sum e p (w.getD ((p + n - 1) % n) 0) (w.getD ((p + 1) % n) 0) with hm
    rw [hM] at hx ⊢
    omega
  rw [hfinal]
  exact set_getD_self w p hpl

theorem encRound_pres (k : List Nat) (n sum : Nat) (L : Nat) (w : List Nat)
    (h : w.length = L ∧ ∀ x ∈ w, x < M32) :
    (encRound k n sum w).length = L ∧ ∀ x ∈ encRound k n sum w, x < M32 := by
  unfold encRound
  exact foldl_preserves (fun w => w.length = L ∧ ∀ x ∈ w, x < M32) _ _
    (fun w p hw _ => ⟨by rw [encStepF_length, hw.1], encStepF_allLt _ _ _ _ _ _ hw.2⟩) w h

theorem dec_enc_round (k : List Nat) (n sum : Nat) (w : List Nat)
    (hn : 2 ≤ n) (hlen : w.length = n) (hlt : ∀ x ∈ w, x < M32) :
    decRound k n sum (encRound k n sum w) = w := by
  unfold encRound decRound
  exact foldr_foldl_cancel (fun w => w.length = n ∧ ∀ x ∈ w, x < M32) _ _ _
    (fun w p hw _ => ⟨by rw [encStepF_length, hw.1], encStepF_allLt _ _ _ _ _ _ hw.2⟩)
    (fun w p hw hp => dec_enc_step k sum (sum / 4 % 4) n w p hn hw.1 hw.2 (List.mem_range.mp hp))
    w ⟨hlen, hlt⟩

theorem xxteaEncryptWords_pres (k : List Nat) (v : List Nat) (hlt : ∀ x ∈ v, x < M32) :
    (xxteaEncryptWords k v).length = v.length ∧ ∀ x ∈ xxteaEncryptWords k v, x < M32 := by
  unfold xxteaEncryptWords
  by_cases h : v.length < 2
  · rw [if_pos h]; exact ⟨rfl, hlt⟩
  · rw [if_neg h]
    exact foldl_preserves (fun w => w.length = v.length ∧ ∀ x ∈ w, x < M32) _ _
      (fun w r hw _ => by
        have := encRound_pres (bytesToWords k) v.length ((r + 1) * XXTEA_DELTA % M32) v.length w hw
        exact this) v ⟨rfl, hlt⟩

theorem xxteaEncryptWords_length (k : List Nat) (v : List Nat) (hlt : ∀ x ∈ v, x < M32) :
    (xxteaEncryptWords k v).length = v.length :=
  (xxteaEncryptWords_pres k v hlt).1

/-- XXTEA decryption undoes XXTEA encryption on any block of words
below 2^32. -/
theorem xxtea_dec_enc (k : List Nat) (v : List Nat) (hlt : ∀ x ∈ v, x < M32) :
    xxteaDecryptWords k (xxteaEncryptWords k v) = v := by
  by_cases h : v.length < 2
  · unfold xxteaEncryptWords xxteaDecryptWords
    rw [if_pos h, if_pos h]
  · have hlen : (xxteaEncryptWords k v).length = v.length := xxteaEncryptWords_length k v hlt
    unfold xxteaDecryptWords
    rw [if_neg (by rw [hlen]; exact h), hlen]
    unfold xxteaEncryptWords
    rw [if_neg h]
    exact foldr_foldl_cancel (fun w => w.length = v.length ∧ ∀ x ∈ w, x < M32) _ _ _
      (fun w r hw _ => encRound_pres (bytesToWords k) v.length ((r + 1) * XXTEA_DELTA % M32) v.length w hw)
      (fun w r hw _ => dec_enc_round (bytesToWords k) v.length ((r + 1) * XXTEA_DELTA % M32) w
        (by omega) hw.1 hw.2)
      v ⟨rfl, hlt⟩

/-! ## Byte and word conversions invert each other -/

theorem wordsToBytes_bytesToWords (bs : List Nat) (hb : ∀ b ∈ bs, b < 256)
    (h4 : bs.length % 4 = 0) : wordsToBytes (bytesToWords bs) = bs := by
  match bs, hb, h4 with
  | [], _, _ => rfl
  | [b0], hb, h4 => simp at h4
  | [b0, b1], hb, h4 => simp at h4
  | [b0, b1, b2], hb, h4 => simp at h4
  | b0 :: b1 :: b2 :: b3 :: rest, hb, h4 =>
    have hb0 : b0 < 256 := hb b0 (by simp)
    have hb1 : b1 < 256 := hb b1 (by simp)
    have hb2 : b2 < 256 := hb b2 (by simp)
    have hb3 : b3 < 256 := hb b3 (by simp)
    have ih := wordsToBytes_bytesToWords rest (fun b hbm => hb b (by simp [hbm]))
      (by simp at h4; omega)
    show (b0 + 256 * b1 + 65536 * b2 + 16777216 * b3) % 256 ::
        (b0 + 256 * b1 + 65536 * b2 + 16777216 * b3) / 256 % 256 ::
        (b0 + 256 * b1 + 65536 * b2 + 16777216 * b3) / 65536 % 256 ::
        (b0 + 256 * b1 + 65536 * b2 + 16777216 * b3) / 16777216 % 256 ::
        wordsToBytes (bytesToWords rest) = b0 :: b1 :: b2 :: b3 :: rest
    rw [ih]
    congr 1
    · omega
    congr 1
    · omega
    congr 1
    · omega
    congr 1
    omega

theorem bytesToWords_wordsToBytes (ws : List Nat) (hw : ∀ w ∈ ws, w < M32) :
    bytesToWords (wordsToBytes ws) = ws := by
  induction ws with
  | nil => rfl
  | cons w rest ih =>
    have hwlt : w < M32 := hw w (by simp)
    have hM : M32 = 4294967296 := rfl
    rw [hM] at hwlt
    show (w % 256 + 256 * (w / 256 % 256) + 65536 * (w / 65536 % 256) +
        16777216 * (w / 16777216 % 256)) :: bytesToWords (wordsToBytes rest) = w :: rest
    rw [ih (fun x hx => hw x (by simp [hx]))]
    congr 1
    omega

theorem wordsToBytes_length (ws : List Nat) : (wordsToBytes ws).length = 4 * ws.length := by
  induction ws with
  | nil => rfl
  | cons w rest ih =>
    show (wordsToBytes rest).length + 4 = 4 * (rest.length + 1)
    omega

theorem bytesToWords_length (bs : List Nat) : (bytesToWords bs).length = bs.length / 4 := by
  match bs with
  | [] => rfl
  | [b0] => simp [bytesToWords]
  | [b0, b1] => simp [bytesToWords]
  | [b0, b1, b2] => simp [bytesToWords]
  | b0 :: b1 :: b2 :: b3 :: rest =>
    have ih := bytesToWords_length rest
    show (bytesToWords rest).length + 1 = (rest.length + 1 + 1 + 1 + 1) / 4
    omega

theorem wordsToBytes_allLt (ws : List Nat) : ∀ b ∈ wordsToBytes ws, b < 256 := by
  induction ws with
  | nil => intro b hb; simp [wordsToBytes] at hb
  | cons w rest ih =>
    intro b hb
    unfold wordsToBytes at hb
    simp only [List.mem_cons] at hb
    rcases hb with rfl | rfl | rfl | rfl | hb
    · exact Nat.mod_lt _ (by norm_num)
    · exact Nat.mod_lt _ (by norm_num)
    · exact Nat.mod_lt _ (by norm_num)
    · exact Nat.mod_lt _ (by norm_num)
    · exact ih b hb

theorem bytesToWords_allLt (bs : List Nat) (hb : ∀ b ∈ bs, b < 256) :
    ∀ w ∈ bytesToWords bs, w < M32 := by
  match bs, hb with
  | [], _ => intro w hw; simp [bytesToWords] at hw
  | [b0], _ => intro w hw; simp [bytesToWords] at hw
  | [b0, b1], _ => intro w hw; simp [bytesToWords] at hw
  | [b0, b1, b2], _ => intro w hw; simp [bytesToWords] at hw
  | b0 :: b1 :: b2 :: b3 :: rest, hb =>
    intro w hw
    unfold bytesToWords at hw
    simp only [List.mem_cons] at hw
    rcases hw with rfl | hw
    · have hb0 : b0 < 256 := hb b0 (by simp)
      have hb1 : b1 < 256 := hb b1 (by simp)
      have hb2 : b2 < 256 := hb b2 (by simp)
      have hb3 : b3 < 256 := hb b3 (by simp)
      have hM : M32 = 4294967296 := rfl
      rw [hM]
      omega
    · exact bytesToWords_allLt rest (fun b hbm => hb b (by simp [hbm])) w hw

/-! ## Unconditional length preservation of the word transforms -/

theorem foldr_preserves {α β : Type} (P : α → Prop) (g : β → α → α) (l : List β)
    (hg : ∀ w b, P w → b ∈ l → P (g b w)) : ∀ w, P w → P (l.foldr g w) := by
  induction l with
  | nil => intro w hw; exact hw
  | cons b t ih =>
    intro w hw
    exact hg _ b (ih (fun w c hwc hc => hg w c hwc (List.mem_cons_of_mem _ hc)) w hw)
      (List.mem_cons_self _ _)

theorem decStepF_length (k : List Nat) (sum e n p : Nat) (w : List Nat) :
    (decStepF k sum e n p w).length = w.length := by
  unfold decStepF; exact List.length_set w p _

theorem encRound_length (k : List Nat) (n sum : Nat) (w : List Nat) :
    (encRound k n sum w).length = w.length := by
  unfold encRound
  exact foldl_preserves (fun v => v.length = w.length) (encStepF k sum (sum / 4 % 4) n)
    (List.range n) (fun v p hv _ => (encStepF_length k sum (sum / 4 % 4) n v p).trans hv) w rfl

theorem decRound_length (k : List Nat) (n sum : Nat) (w : List Nat) :
    (decRound k n sum w).length = w.length := by
  unfold decRound
  exact foldr_preserves (fun v => v.length = w.length) (decStepF k sum (sum / 4 % 4) n)
    (List.range n) (fun v p hv _ => (decStepF_length k sum (sum / 4 % 4) n p v).trans hv) w rfl

theorem xxteaEncryptWords_len (k : List Nat) (v : List Nat) :
    (xxteaEncryptWords k v).length = v.length := by
  unfold xxteaEncryptWords
  by_cases h : v.length < 2
  · rw [if_pos h]
  · rw [if_neg h]
    exact foldl_preserves (fun w => w.length = v.length)
      (fun w r => encRound (bytesToWords k) v.length ((r + 1) * XXTEA_DELTA % M32) w)
      (List.range (xxteaRounds v.length))
      (fun w r hw _ =>
        (encRound_length (bytesToWords k) v.length ((r + 1) * XXTEA_DELTA % M32) w).trans hw) v rfl

theorem xxteaDecryptWords_len (k : List Nat) (v : List Nat) :
    (xxteaDecryptWords k v).length = v.length := by
  unfold xxteaDecryptWords
  by_cases h : v.length < 2
  · rw [if_pos h]
  · rw [if_neg h]
    exact foldr_preserves (fun w => w.length = v.length)
      (fun r w => decRound (bytesToWords k) v.length ((r + 1) * XXTEA_DELTA % M32) w)
      (List.range (xxteaRounds v.length))
      (fun w r hw _ =>
        (decRound_length (bytesToWords k) v.length ((r + 1) * XXTEA_DELTA % M32) w).trans hw) v rfl

/-! ## Properties of the usable chunk size -/

theorem usableChunk_le (rem : Nat) : usableChunk rem ≤ rem := by
  unfold usableChunk XXTEA_CHUNK_SIZE; omega

theorem usableChunk_mod4 (rem : Nat) : usableChunk rem % 4 = 0 := by
  unfold usableChunk XXTEA_CHUNK_SIZE; omega

theorem usableChunk_gt4 (rem : Nat) (h : 8 ≤ rem) : 4 < usableChunk rem := by
  unfold usableChunk XXTEA_CHUNK_SIZE; omega

theorem usableChunk_le4 (rem : Nat) (h : rem < 8) : usableChunk rem ≤ 4 := by
  unfold usableChunk XXTEA_CHUNK_SIZE; omega

/-! ## The chunk loop: unfolding, length preservation, inversion -/

theorem cipherChunks_succ (enc : Bool) (name fk : List Nat) (dl fuel cs : Nat) (rest : List Nat) :
    cipherChunks enc name fk dl (fuel + 1) cs rest =
      if rest.length = 0 then []
      else
        if usableChunk rest.length ≤ 4 then rest
        else
          wordsToBytes
              ((if enc then
                  xxteaEncryptWords (generate_key name (dl % M32) (cs % M32) fk)
                    (bytesToWords (rest.take (usableChunk rest.length)))
                else
                  xxteaDecryptWords (generate_key name (dl % M32) (cs % M32) fk)
                    (bytesToWords (rest.take (usableChunk rest.length))))) ++
            cipherChunks enc name fk dl fuel (cs + XXTEA_CHUNK_SIZE)
              (rest.drop (usableChunk rest.length)) := by
  rfl

theorem cipherChunks_length (enc : Bool) (name fk : List Nat) (dl : Nat) :
    ∀ fuel cs rest, (cipherChunks enc name fk dl fuel cs rest).length = rest.length := by
  intro fuel
  induction fuel with
  | zero => intro cs rest; rfl
  | succ fuel ih =>
    intro cs rest
    rw [cipherChunks_succ]
    by_cases h0 : rest.length = 0
    · rw [if_pos h0, h0]; rfl
    · rw [if_neg h0]
      by_cases h4 : usableChunk rest.length ≤ 4
      · rw [if_pos h4]
      · rw [if_neg h4]
        have hle : usableChunk rest.length ≤ rest.length := usableChunk_le rest.length
        have htl : (rest.take (usableChunk rest.length)).length = usableChunk rest.length :=
          List.length_take_of_le hle
        have hm4 : usableChunk rest.length % 4 = 0 := usableChunk_mod4 rest.length
        rw [List.length_append, ih]
        have hwl : ∀ tw : List Nat,
            tw.length = usableChunk rest.length / 4 → (wordsToBytes tw).length = usableChunk rest.length := by
          intro tw htw
          rw [wordsToBytes_length, htw]; omega
        by_cases henc : enc
        · rw [if_pos henc, hwl _ (by rw [xxteaEncryptWords_len, bytesToWords_length, htl]),
            List.length_drop]
          omega
        · rw [if_neg henc, hwl _ (by rw [xxteaDecryptWords_len, bytesToWords_length, htl]),
            List.length_drop]
          omega

theorem cipherChunks_dec_enc (name fk : List Nat) (dl : Nat) :
    ∀ fuel₁ fuel₂ cs rest, rest.length < fuel₁ → rest.length < fuel₂ →
      (∀ b ∈ rest, b < 256) →
      cipherChunks false name fk dl fuel₂ cs (cipherChunks true name fk dl fuel₁ cs rest) = rest := by
  intro fuel₁
  induction fuel₁ with
  | zero => intro fuel₂ cs rest h1 _ _; omega
  | succ fuel₁ ih =>
    intro fuel₂ cs rest h1 h2 hb
    obtain ⟨f₂, rfl⟩ : ∃ f₂, fuel₂ = f₂ + 1 := ⟨fuel₂ - 1, by omega⟩
    rw [cipherChunks_succ true]
    by_cases h0 : rest.length = 0
    · have hnil : rest = [] := List.eq_nil_of_length_eq_zero h0
      subst hnil
      rw [if_pos h0]
      simp [cipherChunks_succ]
    · rw [if_neg h0]
      by_cases h4 : usableChunk rest.length ≤ 4
      · rw [if_pos h4, cipherChunks_succ, if_neg h0, if_pos h4]
      · rw [if_neg h4, if_pos rfl]
        set cz := usableChunk rest.length with hcz
        have hle : cz ≤ rest.length := usableChunk_le rest.length
        have htl : (rest.take cz).length = cz := List.length_take_of_le hle
        have hm4 : cz % 4 = 0 := usableChunk_mod4 rest.length
        have htb : ∀ b ∈ rest.take cz, b < 256 := fun b hbm => hb b (List.take_subset cz rest hbm)
        have hws : ∀ w ∈ bytesToWords (rest.take cz), w < M32 := bytesToWords_allLt _ htb
        set gk := generate_key name (dl % M32) (cs % M32) fk with hgk
        set tw := xxteaEncryptWords gk (bytesToWords (rest.take cz)) with htw
        have htw_lt : ∀ x ∈ tw, x < M32 := (xxteaEncryptWords_pres gk _ hws).2
        have htw_len : tw.length = cz / 4 := by
          rw [htw, xxteaEncryptWords_len, bytesToWords_length, htl]
        have hwb_len : (wordsToBytes tw).length = cz := by
          rw [wordsToBytes_length, htw_len]; omega
        have hrec_len :
            (cipherChunks true name fk dl fuel₁ (cs + XXTEA_CHUNK_SIZE) (rest.drop cz)).length =
              rest.length - cz := by
          rw [cipherChunks_length, List.length_drop]
        have htot_len :
            (wordsToBytes tw ++
              cipherChunks true name fk dl fuel₁ (cs + XXTEA_CHUNK_SIZE) (rest.drop cz)).length =
              rest.length := by
          rw [List.length_append, hwb_len, hrec_len]; omega
        rw [cipherChunks_succ, htot_len, if_neg h0, ← hcz, if_neg h4,
          List.take_left' hwb_len, List.drop_left' hwb_len, if_neg (by simp)]
        have hdec_chunk :
            xxteaDecryptWords gk (bytesToWords (wordsToBytes tw)) = bytesToWords (rest.take cz) := by
          rw [bytesToWords_wordsToBytes tw htw_lt, htw]
          exact xxtea_dec_enc gk _ hws
        rw [hdec_chunk, wordsToBytes_bytesToWords (rest.take cz) htb (by rw [htl]; exact hm4)]
        have hdb : ∀ b ∈ rest.drop cz, b < 256 := fun b hbm => hb b (List.drop_subset cz rest hbm)
        rw [ih f₂ (cs + XXTEA_CHUNK_SIZE) (rest.drop cz) (by rw [List.length_drop]; omega)
          (by rw [List.length_drop]; omega) hdb]
        exact List.take_append_drop cz rest

theorem encrypt_length (name key data : List Nat) : (encrypt name key data).length = data.length :=
  cipherChunks_length true name key data.length (data.length + 1) 0 data

theorem decrypt_length (name key data : List Nat) : (decrypt name key data).length = data.length :=
  cipherChunks_length false name key data.length (data.length + 1) 0 data

/-- C1 theorem: for every name, key and byte buffer, decrypting an
encrypted buffer with the same name and key restores the buffer. -/
theorem decrypt_encrypt (name key data : List Nat) (hb : ∀ b ∈ data, b < 256) :
    decrypt name key (encrypt name key data) = data := by
  unfold decrypt
  rw [encrypt_length]
  exact cipherChunks_dec_enc name key data.length (data.length + 1) (data.length + 1) 0 data
    (by omega) (by omega) hb

/-! ## The short-window guard (claim C2) -/

theorem cipherChunks_guard_stops (enc : Bool) (name fk : List Nat) (dl fuel cs : Nat)
    (rest : List Nat) (h : usableChunk rest.length ≤ 4) :
    cipherChunks enc name fk dl (fuel + 1) cs rest = rest := by
  rw [cipherChunks_succ]
  by_cases h0 : rest.length = 0
  · rw [if_pos h0]
    exact (List.eq_nil_of_length_eq_zero h0).symm
  · rw [if_neg h0, if_pos h]

theorem cipherChunks_drop_windows (enc : Bool) (name fk : List Nat) (dl : Nat) :
    ∀ k fuel cs rest, rest.length < fuel →
      XXTEA_CHUNK_SIZE * k < rest.length → rest.length - XXTEA_CHUNK_SIZE * k < 8 →
      (cipherChunks enc name fk dl fuel cs rest).drop (XXTEA_CHUNK_SIZE * k) =
        rest.drop (XXTEA_CHUNK_SIZE * k) := by
  intro k
  induction k with
  | zero =>
    intro fuel cs rest hfuel hpos hshort
    obtain ⟨f, rfl⟩ : ∃ f, fuel = f + 1 := ⟨fuel - 1, by omega⟩
    simp only [Nat.mul_zero] at hpos hshort ⊢
    rw [cipherChunks_guard_stops enc name fk dl f cs rest (usableChunk_le4 _ (by omega))]
  | succ k ih =>
    intro fuel cs rest hfuel hpos hshort
    obtain ⟨f, rfl⟩ : ∃ f, fuel = f + 1 := ⟨fuel - 1, by omega⟩
    have hCH : XXTEA_CHUNK_SIZE = 8192 := rfl
    simp only [hCH] at hpos hshort ih ⊢
    have hbig : 8192 ≤ rest.length := by omega
    have huc : usableChunk rest.length = 8192 := by
      unfold usableChunk XXTEA_CHUNK_SIZE; omega
    have h0 : rest.length ≠ 0 := by omega
    rw [cipherChunks_succ, if_neg h0, huc, if_neg (by omega)]
    set tw := (if enc then
        xxteaEncryptWords (generate_key name (dl % M32) (cs % M32) fk)
          (bytesToWords (rest.take 8192))
      else
        xxteaDecryptWords (generate_key name (dl % M32) (cs % M32) fk)
          (bytesToWords (rest.take 8192))) with htwdef
    have htw_len : tw.length = 8192 / 4 := by
      rw [htwdef]
      by_cases henc : enc
      · rw [if_pos henc, xxteaEncryptWords_len, bytesToWords_length,
          List.length_take_of_le (by omega)]
      · rw [if_neg henc, xxteaDecryptWords_len, bytesToWords_length,
          List.length_take_of_le (by omega)]
    have hwb_len : (wordsToBytes tw).length = 8192 := by
      rw [wordsToBytes_length, htw_len]
    have hsplit : 8192 * (k + 1) = (wordsToBytes tw).length + 8192 * k := by
      rw [hwb_len]; ring
    rw [hsplit, List.drop_append]
    have hrec := ih f (cs + XXTEA_CHUNK_SIZE) (rest.drop 8192)
      (by rw [List.length_drop]; omega)
      (by rw [List.length_drop]; omega)
      (by rw [List.length_drop]; omega)
    rw [hrec, List.drop_drop, hwb_len]

/-- C1: for every byte buffer D, name N, and 16-byte key K,
decrypt(N, K, encrypt(N, K, D)) = D; the forward and inverse cipher
operations are exact inverses for any input buffer of bytes, covering
in particular lengths 0 through 11 and buffers spanning multiple
8192-byte windows. -/
theorem c1_cipher_roundtrip (name key data : List Nat) (hb : ∀ b ∈ data, b < 256) :
    decrypt name key (encrypt name key data) = data :=
  decrypt_encrypt name key data hb

/-- Witness for C1 at the 11-byte test vector of the repository. -/
theorem c1_cipher_roundtrip_witness :
    (∀ b ∈ ([49, 50, 51, 52, 53, 54, 55, 56, 57, 48, 49] : List Nat), b < 256) ∧
    decrypt testName TEST_KEY
        (encrypt testName TEST_KEY [49, 50, 51, 52, 53, 54, 55, 56, 57, 48, 49]) =
      [49, 50, 51, 52, 53, 54, 55, 56, 57, 48, 49] :=
  ⟨by decide, c1_cipher_roundtrip testName TEST_KEY _ (by decide)⟩

/-- C2: if the window at index k (window starts advance by exactly
8192 bytes) is reached and its usable length is at most 4, then both
encrypt and decrypt leave that window and every byte from its start to
the end of the buffer untouched, and that window is necessarily the
final one. -/
theorem c2_guard_final_window (name key data : List Nat) (k : Nat)
    (hreach : XXTEA_CHUNK_SIZE * k < data.length)
    (hguard : usableChunk (data.length - XXTEA_CHUNK_SIZE * k) ≤ 4) :
    (encrypt name key data).drop (XXTEA_CHUNK_SIZE * k) = data.drop (XXTEA_CHUNK_SIZE * k) ∧
    (decrypt name key data).drop (XXTEA_CHUNK_SIZE * k) = data.drop (XXTEA_CHUNK_SIZE * k) ∧
    data.length ≤ XXTEA_CHUNK_SIZE * (k + 1) := by
  have hshort : data.length - XXTEA_CHUNK_SIZE * k < 8 := by
    by_contra hge
    have := usableChunk_gt4 (data.length - XXTEA_CHUNK_SIZE * k) (by omega)
    omega
  refine ⟨?_, ?_, ?_⟩
  · exact cipherChunks_drop_windows true name key data.length k (data.length + 1) 0 data
      (by omega) hreach hshort
  · exact cipherChunks_drop_windows false name key data.length k (data.length + 1) 0 data
      (by omega) hreach hshort
  · have hCH : XXTEA_CHUNK_SIZE = 8192 := rfl
    rw [hCH] at hreach hshort ⊢
    omega

/-- Witness for C2 at a 3-byte buffer, window 0. -/
theorem c2_guard_final_window_witness :
    XXTEA_CHUNK_SIZE * 0 < ([1, 2, 3] : List Nat).length ∧
    usableChunk (([1, 2, 3] : List Nat).length - XXTEA_CHUNK_SIZE * 0) ≤ 4 ∧
    ((encrypt testName TEST_KEY [1, 2, 3]).drop (XXTEA_CHUNK_SIZE * 0) =
        ([1, 2, 3] : List Nat).drop (XXTEA_CHUNK_SIZE * 0) ∧
      (decrypt testName TEST_KEY [1, 2, 3]).drop (XXTEA_CHUNK_SIZE * 0) =
        ([1, 2, 3] : List Nat).drop (XXTEA_CHUNK_SIZE * 0) ∧
      ([1, 2, 3] : List Nat).length ≤ XXTEA_CHUNK_SIZE * (0 + 1)) :=
  ⟨by decide, by decide, c2_guard_final_window testName TEST_KEY [1, 2, 3] 0 (by decide) (by decide)⟩

/-- C3: the per-window cipher key is derived as mask = total length
XOR window start offset XOR djb2a(name), and the derived key is the
16-byte secret key with byte k of each of its four 4-byte words
bitwise-ANDed with byte k of the mask taken little-endian, for k in
0..4, identically for all four words. -/
theorem c3_generate_key_mask (name : List Nat) (length chunk_offset : Nat)
    (x0 x1 x2 x3 x4 x5 x6 x7 x8 x9 x10 x11 x12 x13 x14 x15 : Nat) (w k : Nat)
    (hw : w < 4) (hk : k < 4) :
    (generate_key name length chunk_offset
        [x0, x1, x2, x3, x4, x5, x6, x7, x8, x9, x10, x11, x12, x13, x14, x15]).getD (4 * w + k) 0 =
      [x0, x1, x2, x3, x4, x5, x6, x7, x8, x9, x10, x11, x12, x13, x14, x15].getD (4 * w + k) 0 &&&
        (length ^^^ chunk_offset ^^^ djb2a name) / 256 ^ k % 256 := by
  have hr : List.range 4 = [0, 1, 2, 3] := rfl
  interval_cases w <;> interval_cases k <;>
    simp [generate_key, hr, maskKeyWord, List.set, List.getD]

/-- Witness for C3 at the repository test key, word 1, byte 2. -/
theorem c3_generate_key_mask_witness :
    (1 : Nat) < 4 ∧ (2 : Nat) < 4 ∧
    (generate_key testName 8 0 TEST_KEY).getD (4 * 1 + 2) 0 =
      TEST_KEY.getD (4 * 1 + 2) 0 &&& (8 ^^^ 0 ^^^ djb2a testName) / 256 ^ 2 % 256 :=
  ⟨by decide, by decide,
    c3_generate_key_mask testName 8 0 166 66 178 122 225 218 158 18 206 12 97 53 215 92 237 104
      1 2 (by decide) (by decide)⟩

/-! ## Checksum engine (src/jamcrc32.rs and the crc32fast crate) -/

/-- One step of the reflected CRC-32 bit loop with polynomial
0xEDB88320: shift right, XOR the polynomial in when the low bit was
set. -/
def crcBit (s : Nat) : Nat := if s % 2 = 1 then s / 2 ^^^ 3988292384 else s / 2

/-- Fold one byte into a CRC-32 state: XOR the byte in, then run eight
bit steps. -/
def crcByte (s b : Nat) : Nat :=
  crcBit (crcBit (crcBit (crcBit (crcBit (crcBit (crcBit (crcBit (s ^^^ b % 256))))))))

/-- The raw reflected CRC-32 fold, with no initial or final
complement. -/
def crcFold (s : Nat) (data : List Nat) : Nat := data.foldl crcByte s

/-- Model of the crc32fast hasher: new_with_initial(init), update over
the data, then finalize.  The internal state starts at the complement
of the initial CRC value and the finalized value is the complement of
the state, which makes hashing resumable from a previous CRC. -/
def crc32fast_finalize (init : Nat) (data : List Nat) : Nat :=
  crcFold (init ^^^ 4294967295) data ^^^ 4294967295

/-- crc32fast::hash, the Standard checksum variant: a hasher with
initial value 0. -/
def crc32fast_hash (data : List Nat) : Nat := crc32fast_finalize 0 data

/-- The Jamcrc32Hasher of src/jamcrc32.rs (the ComplementSeeded
variant): it wraps crc32fast, flipping the bits of the initial value
on construction and of the result on finalize. -/
def jamcrc32 (init : Nat) (data : List Nat) : Nat :=
  crc32fast_finalize (init ^^^ 4294967295) data ^^^ 4294967295

/-! Validation against the unit tests of src/jamcrc32.rs. -/

example : jamcrc32 0 [49, 50, 51, 52, 53, 54, 55, 56, 57] = 0x2dfd2d88 := by decide
example : jamcrc32 4294967295 [49, 50, 51, 52, 53, 54, 55, 56, 57] = 0x340bc6d9 := by decide
example : jamcrc32 4660 [49, 50, 51, 52, 53, 54, 55, 56, 57] = 0x60be8a00 := by decide

/-- C7 counterexample: the Standard-variant checksum (crc32fast::hash,
zero seed) of "123456789" is 0xCBF43926, not 0x2DFD2D88 as the claim
states; 0x2DFD2D88 is the value of the ComplementSeeded (JAMCRC)
variant with zero seed. -/
theorem c7_checksum_vector_counterexample :
    crc32fast_hash [49, 50, 51, 52, 53, 54, 55, 56, 57] = 0xCBF43926 ∧
    crc32fast_hash [49, 50, 51, 52, 53, 54, 55, 56, 57] ≠ 0x2DFD2D88 := by
  decide

/-- C7 (amended): the ComplementSeeded (JAMCRC) checksum of
"123456789" with zero seed equals 0x2DFD2D88, while the Standard
variant of the same input equals 0xCBF43926. -/
theorem c7_checksum_vector :
    jamcrc32 0 [49, 50, 51, 52, 53, 54, 55, 56, 57] = 0x2DFD2D88 ∧
    crc32fast_hash [49, 50, 51, 52, 53, 54, 55, 56, 57] = 0xCBF43926 := by
  decide

/-! ## Binary schema (src/shared.rs) -/

/-- The name used for key generation of the assets list blob. -/
def ASSETS_LIST_NAME : List Nat := [104, 101, 97, 100, 101, 114]

/-- The only accepted PAK file version. -/
def FILE_VERSION : Nat := 103

/-- The size in bytes of the PAK header. -/
def PAK_HEADER_SIZE : Nat := 40

/-- The offset of the whole-file CRC32 slot in the header. -/
def PAK_CRC32_OFFSET : Nat := 8

/-- The offset at which the whole-file CRC32 calculation begins. -/
def PAK_CRC32_START_OFFSET : Nat := 20

/-- Sign-extend a u64 holding a 56-bit signed integer to i64, ignoring
the uppermost 8 bits (src/shared.rs, u56_to_i64).  The i64 result is
modelled as an integer; a u64 with its top bit set reinterprets as
that value minus 2^64. -/
def u56_to_i64 (value : Nat) : Int :=
  if value &&& 36028797018963968 = 0 then
    ((value &&& 72057594037927935 : Nat) : Int)
  else
    ((value ||| 18374686479671623680 : Nat) : Int) - 18446744073709551616

/-- The parsed (or to-be-written) PAK header fields. -/
structure PakHeaderM where
  version : Nat
  crc32 : Nat
  unk0c : Nat
  timestamp : Int
  assets_list_size_decompressed : Nat
  assets_list_size_compressed : Nat
  plaintext_crc32 : Nat
  ciphertext_crc32 : Nat
deriving DecidableEq, Repr

/-- Little-endian serialization of a 32-bit value into 4 bytes. -/
def u32le (x : Nat) : List Nat := [x % 256, x / 256 % 256, x / 65536 % 256, x / 16777216 % 256]

/-- Read a little-endian u32 from a byte list at an offset. -/
def readU32LE (f : List Nat) (i : Nat) : Nat :=
  f.getD i 0 + 256 * f.getD (i + 1) 0 + 65536 * f.getD (i + 2) 0 + 16777216 * f.getD (i + 3) 0

/-- Read a little-endian u64 from a byte list at an offset. -/
def readU64LE (f : List Nat) (i : Nat) : Nat :=
  f.getD i 0 + 256 * f.getD (i + 1) 0 + 65536 * f.getD (i + 2) 0 +
    16777216 * f.getD (i + 3) 0 + 4294967296 * f.getD (i + 4) 0 +
    1099511627776 * f.getD (i + 5) 0 + 281474976710656 * f.getD (i + 6) 0 +
    72057594037927936 * f.getD (i + 7) 0

/-- Two's-complement u64 bit pattern of an i64 value. -/
def i64ToU64 (t : Int) : Nat := (t % 18446744073709551616).toNat

/-- Serialized PAK header (write path of the binrw PakHeader): magic
"KCAP", version, crc32, the flag byte, the 8 bytes of the timestamp of
which the last is immediately overwritten (seek_before(-1)) by the
first byte of the decompressed index size, then the two index sizes,
the write-only derived word hash("header") XOR compressed size, and
the index plaintext and ciphertext checksums.  Offsets 0x00-0x28. -/
def headerBytes (h : PakHeaderM) : List Nat :=
  [75, 67, 65, 80] ++ u32le h.version ++ u32le h.crc32 ++ [h.unk0c % 256] ++
    [i64ToU64 h.timestamp % 256, i64ToU64 h.timestamp / 256 % 256,
      i64ToU64 h.timestamp / 65536 % 256, i64ToU64 h.timestamp / 16777216 % 256,
      i64ToU64 h.timestamp / 4294967296 % 256, i64ToU64 h.timestamp / 1099511627776 % 256,
      i64ToU64 h.timestamp / 281474976710656 % 256] ++
    u32le h.assets_list_size_decompressed ++ u32le h.assets_list_size_compressed ++
    u32le (djb2a ASSETS_LIST_NAME ^^^ h.assets_list_size_compressed) ++
    u32le h.plaintext_crc32 ++ u32le h.ciphertext_crc32

/-- Errors of the decode paths. -/
inductive UnpackError where
  | badMagic : UnpackError
  | badVersion : Nat → UnpackError
  | truncated : UnpackError
  | malformed : UnpackError
  | decompressFail : UnpackError
  | badName : UnpackError
  | traversal : UnpackError
  | noParent : UnpackError
deriving DecidableEq, Repr

/-- Parse a PAK header from the start of a file (read path of the
binrw PakHeader): check the magic, read the fields; the timestamp is
an 8-byte read at 0x0d mapped through u56_to_i64, and the reader then
seeks back one byte so that the index sizes are read at 0x14 and 0x18;
the derived word at 0x1c is read and discarded. -/
def parseHeader (f : List Nat) : Except UnpackError PakHeaderM :=
  if f.length < 4 then .error .truncated
  else
    if f.take 4 ≠ [75, 67, 65, 80] then .error .badMagic
    else
      if f.length < 40 then .error .truncated
      else
        .ok
          { version := readU32LE f 4
            crc32 := readU32LE f 8
            unk0c := f.getD 12 0
            timestamp := u56_to_i64 (readU64LE f 13)
            assets_list_size_decompressed := readU32LE f 20
            assets_list_size_compressed := readU32LE f 24
            plaintext_crc32 := readU32LE f 32
            ciphertext_crc32 := readU32LE f 36 }

/-- A parsed entry of the assets list. -/
structure PakAssetM where
  name : List Nat
  size_decompressed : Nat
  size_compressed : Nat
  offset : Nat
  plaintext_crc32 : Nat
  ciphertext_crc32 : Nat
deriving DecidableEq, Repr

/-- Expected value of PakAsset field 0x0c (write-only). -/
def calc_field_0x0c (name : List Nat) (size : Nat) : Nat :=
  if 10485760 ≤ size ∨ ([46, 97, 108, 102].isSuffixOf name) = true then 2 else 0

/-- Expected value of PakAsset field 0x10 (write-only). -/
def calc_field_0x10 (name : List Nat) (size_compressed : Nat) : Nat :=
  if size_compressed = 0 then 0 else djb2a name ^^^ size_compressed

/-- Serialized PakAsset record: length-prefixed name then seven 32-bit
words (decompressed size, compressed size, offset, two write-only
derived words, plaintext checksum, ciphertext checksum). -/
def serializeAsset (a : PakAssetM) : List Nat :=
  u32le a.name.length ++ a.name ++ u32le a.size_decompressed ++ u32le a.size_compressed ++
    u32le a.offset ++ u32le (calc_field_0x0c a.name a.size_compressed) ++
    u32le (calc_field_0x10 a.name a.size_compressed) ++
    u32le a.plaintext_crc32 ++ u32le a.ciphertext_crc32

/-- Serialized PakAssets list: 32-bit count then the records. -/
def serializePakAssets (l : List PakAssetM) : List Nat :=
  u32le l.length ++ (l.map serializeAsset).flatten

/-- Parse a single PakAsset record; fails (like binrw hitting the end
of the cursor) when too few bytes remain.  Returns the record and the
remaining bytes. -/
def parseAsset (b : List Nat) : Option (PakAssetM × List Nat) :=
  if b.length < 4 then none
  else
    let nl := readU32LE b 0
    let b1 := b.drop 4
    if b1.length < nl + 28 then none
    else
      let rest := b1.drop nl
      some
        ({ name := b1.take nl
           size_decompressed := readU32LE rest 0
           size_compressed := readU32LE rest 4
           offset := readU32LE rest 8
           plaintext_crc32 := readU32LE rest 20
           ciphertext_crc32 := readU32LE rest 24 }, rest.drop 28)

/-- Parse a given number of PakAsset records in sequence. -/
def parseAssetsGo : Nat → List Nat → Option (List PakAssetM)
  | 0, _ => some []
  | n + 1, b => do
    let ar ← parseAsset b
    let tail ← parseAssetsGo n ar.2
    some (ar.1 :: tail)

/-- Parse a PakAssets blob: 32-bit count then that many records. -/
def parsePakAssets (b : List Nat) : Option (List PakAssetM) :=
  if b.length < 4 then none else parseAssetsGo (readU32LE b 0) (b.drop 4)

/-! ## Encode path (src/flow_pack.rs) -/

/-- Optional compression of a payload before encryption: the
compressed form (produced by the abstract lz4 block compressor `comp`)
is kept only when compression is requested and the compressed form is
strictly smaller than the raw data. -/
def maybe_compress (compress_files : Bool) (comp : List Nat → List Nat) (data : List Nat) :
    List Nat :=
  if compress_files ∧ (comp data).length < data.length then comp data else data

/-- The per-file loop of pack: for each (name, raw data) entry,
optionally compress, take the Standard checksum of the stored bytes,
encrypt with the entry name, take the Standard checksum of the
ciphertext, and record the entry metadata; offsets accumulate the
encrypted payload lengths.  Returns the assets list and the
concatenated encrypted payloads. -/
def packEntries (key : List Nat) (compress_files : Bool) (comp : List Nat → List Nat) :
    List (List Nat × List Nat) → Nat → List PakAssetM × List Nat
  | [], _ => ([], [])
  | (name, data) :: rest, off =>
    let stored := maybe_compress compress_files comp data
    let encd := encrypt name key stored
    let r := packEntries key compress_files comp rest (off + encd.length)
    ({ name := name
       size_decompressed := data.length
       size_compressed := stored.length
       offset := off
       plaintext_crc32 := crc32fast_hash stored
       ciphertext_crc32 := crc32fast_hash encd } :: r.1,
      encd ++ r.2)

/-- The size of the assets list as precomputed by pack before writing:
4 bytes of count plus 0x20 bytes plus the name length per entry. -/
def assetsListBytesLen (entries : List (List Nat × List Nat)) : Nat :=
  4 + entries.foldl (fun n e => n + 32 + e.1.length) 0

/-- Overwrite bytes of a file at a position (a seek followed by a
write). -/
def writeBytes (f : List Nat) (pos : Nat) (bs : List Nat) : List Nat :=
  f.take pos ++ bs ++ f.drop (pos + bs.length)

/-- Final pass of pack (src/flow_pack.rs, fix_header_crc32): compute
the JAMCRC32 of the file from PAK_CRC32_START_OFFSET to the end,
seeded with the total file size truncated to 32 bits, and write it
little-endian into the 4-byte slot at PAK_CRC32_OFFSET. -/
def fix_header_crc32 (f : List Nat) : List Nat :=
  writeBytes f PAK_CRC32_OFFSET (u32le (jamcrc32 (f.length % M32) (f.drop PAK_CRC32_START_OFFSET)))

/-- The pack flow (src/flow_pack.rs, pack), for an already-gathered
ordered list of (name, data) entries: requesting header compression is
unimplemented in the source (todo!) and produces no output; otherwise
the encrypted payloads are laid out after the reserved header space,
the assets list is serialized, encrypted with the fixed sentinel name
and placed right after the header, the header is written with both
index size fields equal to the precomputed assets list size, and
finally the whole-file checksum is patched in. -/
def packBytes (key : List Nat) (timestamp : Int) (compress_files : Bool)
    (comp : List Nat → List Nat) (entries : List (List Nat × List Nat)) : List Nat :=
  let pe := packEntries key compress_files comp entries 0
  let header_buf := serializePakAssets pe.1
  let header_enc := encrypt ASSETS_LIST_NAME key header_buf
  let h : PakHeaderM :=
    { version := FILE_VERSION
      crc32 := 0
      unk0c := 1
      timestamp := timestamp
      assets_list_size_decompressed := assetsListBytesLen entries
      assets_list_size_compressed := assetsListBytesLen entries
      plaintext_crc32 := crc32fast_hash header_buf
      ciphertext_crc32 := crc32fast_hash header_enc }
  fix_header_crc32 (headerBytes h ++ header_enc ++ pe.2)

def pack (key : List Nat) (timestamp : Int) (compress_header compress_files : Bool)
    (comp : List Nat → List Nat) (entries : List (List Nat × List Nat)) : Option (List Nat) :=
  if compress_header then none
  else some (packBytes key timestamp compress_files comp entries)

/-! ## Decode path (src/flow_unpack.rs) -/

/-- UTF-8 validity of a byte list, as checked by str::from_utf8. -/
def utf8Valid : List Nat → Bool
  | [] => true
  | b :: rest =>
    if b < 128 then utf8Valid rest
    else
      if 194 ≤ b ∧ b ≤ 223 then
        match rest with
        | c1 :: rest2 => if 128 ≤ c1 ∧ c1 ≤ 191 then utf8Valid rest2 else false
        | [] => false
      else
        if b = 224 then
          match rest with
          | c1 :: c2 :: rest2 =>
            if (160 ≤ c1 ∧ c1 ≤ 191) ∧ (128 ≤ c2 ∧ c2 ≤ 191) then utf8Valid rest2 else false
          | _ => false
        else
          if (225 ≤ b ∧ b ≤ 236) ∨ b = 238 ∨ b = 239 then
            match rest with
            | c1 :: c2 :: rest2 =>
              if (128 ≤ c1 ∧ c1 ≤ 191) ∧ (128 ≤ c2 ∧ c2 ≤ 191) then utf8Valid rest2 else false
            | _ => false
          else
            if b = 237 then
              match rest with
              | c1 :: c2 :: rest2 =>
                if (128 ≤ c1 ∧ c1 ≤ 159) ∧ (128 ≤ c2 ∧ c2 ≤ 191) then utf8Valid rest2 else false
              | _ => false
            else
              if b = 240 then
                match rest with
                | c1 :: c2 :: c3 :: rest2 =>
                  if (144 ≤ c1 ∧ c1 ≤ 191) ∧ (128 ≤ c2 ∧ c2 ≤ 191) ∧ (128 ≤ c3 ∧ c3 ≤ 191) then
                    utf8Valid rest2
                  else false
                | _ => false
              else
                if 241 ≤ b ∧ b ≤ 243 then
                  match rest with
                  | c1 :: c2 :: c3 :: rest2 =>
                    if (128 ≤ c1 ∧ c1 ≤ 191) ∧ (128 ≤ c2 ∧ c2 ≤ 191) ∧ (128 ≤ c3 ∧ c3 ≤ 191) then
                      utf8Valid rest2
                    else false
                  | _ => false
                else
                  if b = 244 then
                    match rest with
                    | c1 :: c2 :: c3 :: rest2 =>
                      if (128 ≤ c1 ∧ c1 ≤ 143) ∧ (128 ≤ c2 ∧ c2 ≤ 191) ∧ (128 ≤ c3 ∧ c3 ≤ 191) then
                        utf8Valid rest2
                      else false
                    | _ => false
                  else false

/-- A filesystem path: an absolute flag and normalized components
(empty and single-dot segments dropped; double-dot kept). -/
structure PathM where
  isAbs : Bool
  comps : List (List Nat)
deriving DecidableEq, Repr

/-- Split a byte list at forward slashes. -/
def splitSeg : List Nat → List (List Nat)
  | [] => [[]]
  | b :: rest =>
    let r := splitSeg rest
    if b = 47 then [] :: r
    else (b :: r.headD []) :: r.tail

/-- Path components of a name, dropping empty and "." segments (as
Rust Path normalization does for everything relevant here). -/
def pathComponents (name : List Nat) : List (List Nat) :=
  (splitSeg name).filter (fun s => decide (s ≠ [] ∧ s ≠ [46]))

/-- Interpret an entry name as a path. -/
def pathOfName (name : List Nat) : PathM :=
  { isAbs := decide (name.head? = some 47), comps := pathComponents name }

/-- Whether a path contains a parent-directory ("..") component
(Component::ParentDir in the Rust check). -/
def hasParentDir (p : PathM) : Bool := p.comps.contains [46, 46]

/-- Path join with Rust semantics: joining an absolute path replaces
the base entirely. -/
def joinPath (root p : PathM) : PathM :=
  if p.isAbs then p else { isAbs := root.isAbs, comps := root.comps ++ p.comps }

/-- A path lies under the output root when it extends the root's
components (meaningful for paths free of parent-directory segments). -/
def underRoot (root p : PathM) : Prop :=
  p.isAbs = root.isAbs ∧ root.comps <+: p.comps

/-- Read `size` bytes at `off`, failing like read_exact when the file
is too short. -/
def readSlice (f : List Nat) (off size : Nat) : Option (List Nat) :=
  if off + size ≤ f.length then some ((f.drop off).take size) else none

/-- decrypt_from_reader of src/encryption.rs: seek, read exactly, then
decrypt in place. -/
def decrypt_from_reader (f name : List Nat) (off size : Nat) (key : List Nat) :
    Option (List Nat) :=
  (readSlice f off size).map (fun d => decrypt name key d)

/-- Read, decrypt, optionally decompress (abstract lz4 `dcIdx`, used
only when the two recorded index sizes differ) and parse the assets
list of a container. -/
def decodeIndex (f key : List Nat) (dcIdx : List Nat → Nat → Option (List Nat))
    (h : PakHeaderM) : Except UnpackError (List PakAssetM) :=
  match decrypt_from_reader f ASSETS_LIST_NAME PAK_HEADER_SIZE h.assets_list_size_compressed key with
  | none => .error .truncated
  | some blob =>
    match (if h.assets_list_size_compressed ≠ h.assets_list_size_decompressed then
        dcIdx blob h.assets_list_size_decompressed
      else some blob) with
    | none => .error .decompressFail
    | some raw =>
      match parsePakAssets raw with
      | none => .error .malformed
      | some assets => .ok assets

/-- Per-entry processing of unpack, in source order: the UTF-8 check
of the name, the read and decrypt of the payload at header size +
compressed index size + offset, the optional decompression (abstract
lz4 `dcA`, only when the two recorded sizes differ), the
parent-directory rejection, the parent-existence check of the joined
output path; on success the write event (path, bytes) is produced. -/
def processOneAsset (f key : List Nat) (dcA : List Nat → Nat → Option (List Nat))
    (root : PathM) (base : Nat) (a : PakAssetM) : Except UnpackError (PathM × List Nat) :=
  if utf8Valid a.name = false then .error .badName
  else
    match decrypt_from_reader f a.name (base + a.offset) a.size_compressed key with
    | none => .error .truncated
    | some data0 =>
      match (if a.size_compressed ≠ a.size_decompressed then dcA data0 a.size_decompressed
          else some data0) with
      | none => .error .decompressFail
      | some data =>
        let p := pathOfName a.name
        if hasParentDir p then .error .traversal
        else
          let outP := joinPath root p
          if outP.comps = [] then .error .noParent
          else .ok (outP, data)

/-- The result of an unpack run: the list of file writes performed, in
order, and the error that stopped the run, if any. -/
structure UnpackResult where
  writes : List (PathM × List Nat)
  err : Option UnpackError
deriving DecidableEq, Repr

/-- The per-asset loop of unpack: assets are processed in index order;
the first failing asset stops the loop with its error, after the
writes of all earlier assets have been performed. -/
def unpackAssets (f key : List Nat) (dcA : List Nat → Nat → Option (List Nat))
    (root : PathM) (base : Nat) : List PakAssetM → UnpackResult
  | [] => { writes := [], err := none }
  | a :: rest =>
    match processOneAsset f key dcA root base a with
    | .error e => { writes := [], err := some e }
    | .ok w =>
      let r := unpackAssets f key dcA root base rest
      { writes := w :: r.writes, err := r.err }

/-- The unpack flow (src/flow_unpack.rs, unpack): parse and validate
the header (magic, version 103), decode the index, then process every
asset. -/
def unpack (f key : List Nat) (dcIdx dcA : List Nat → Nat → Option (List Nat))
    (root : PathM) : UnpackResult :=
  match parseHeader f with
  | .error e => { writes := [], err := some e }
  | .ok h =>
    if h.version ≠ FILE_VERSION then { writes := [], err := some (.badVersion h.version) }
    else
      match decodeIndex f key dcIdx h with
      | .error e => { writes := [], err := some e }
      | .ok assets =>
        unpackAssets f key dcA root (PAK_HEADER_SIZE + h.assets_list_size_compressed) assets

/-! ## The 56-bit timestamp and the overlapping size field (claim C6) -/

theorem or_high_mask (a c : Nat) (ha : a < 72057594037927936) (hc : c < 256) :
    (a + 72057594037927936 * c) ||| 18374686479671623680 = a + 18374686479671623680 := by
  have h56 : (72057594037927936 : Nat) = 2 ^ 56 := by norm_num
  have hM : (18374686479671623680 : Nat) = 2 ^ 56 * 255 := by norm_num
  rw [h56] at ha
  rw [h56, hM]
  have hswap1 : a + 2 ^ 56 * c = 2 ^ 56 * c + a := by omega
  have hswap2 : a + 2 ^ 56 * 255 = 2 ^ 56 * 255 + a := by omega
  rw [hswap1, hswap2]
  apply Nat.eq_of_testBit_eq
  intro i
  rw [Nat.testBit_lor, Nat.testBit_mul_pow_two_add c ha i, Nat.testBit_mul_pow_two_add 255 ha i,
    Nat.testBit_mul_pow_two]
  by_cases hi : i < 56
  · have : ¬ i ≥ 56 := by omega
    simp [hi, this]
  · have hge : i ≥ 56 := by omega
    simp only [if_neg hi, decide_eq_true_eq, hge, decide_True, Bool.true_and]
    have h255 : (255 : Nat) = 2 ^ 8 - 1 := by norm_num
    rw [h255, Nat.testBit_two_pow_sub_one]
    by_cases hj : i - 56 < 8
    · simp [hj]
    · have hcf : c.testBit (i - 56) = false :=
        Nat.testBit_lt_two_pow (lt_of_lt_of_le hc (by
          calc (256 : Nat) = 2 ^ 8 := by norm_num
            _ ≤ 2 ^ (i - 56) := Nat.pow_le_pow_right (by norm_num) (by omega)))
      simp [hj, hcf]

theorem u56_to_i64_packed (a c : Nat) (ha : a < 72057594037927936) (hc : c < 256) :
    u56_to_i64 (a + 72057594037927936 * c) =
      if a < 36028797018963968 then (a : Int) else (a : Int) - 72057594037927936 := by
  unfold u56_to_i64
  have h55 : (36028797018963968 : Nat) = 2 ^ 55 := by norm_num
  have hcond : (a + 72057594037927936 * c) &&& 36028797018963968 =
      (a.testBit 55).toNat * 36028797018963968 := by
    rw [h55, Nat.and_two_pow]
    have hb : (a + 72057594037927936 * c).testBit 55 = a.testBit 55 := by
      rw [Nat.testBit_to_div_mod, Nat.testBit_to_div_mod]
      have : (a + 72057594037927936 * c) / 2 ^ 55 % 2 = a / 2 ^ 55 % 2 := by
        have hp : (2 : Nat) ^ 55 = 36028797018963968 := by norm_num
        rw [hp]
        omega
      rw [this]
    rw [hb]
  have htb : a.testBit 55 = decide (a / 2 ^ 55 % 2 = 1) := Nat.testBit_to_div_mod
  have hp : (2 : Nat) ^ 55 = 36028797018963968 := by norm_num
  by_cases ha55 : a < 36028797018963968
  · have hbit : a.testBit 55 = false := by
      rw [htb, hp]
      simp only [decide_eq_false_iff_not]
      omega
    rw [if_pos (by rw [hcond, hbit]; rfl), if_pos ha55]
    have hmask : (72057594037927935 : Nat) = 2 ^ 56 - 1 := by norm_num
    rw [hmask, Nat.and_pow_two_sub_one_eq_mod]
    have : (a + 72057594037927936 * c) % 2 ^ 56 = a := by
      have hp : (2 : Nat) ^ 56 = 72057594037927936 := by norm_num
      rw [hp]; omega
    rw [this]
  · have hbit : a.testBit 55 = true := by
      rw [htb, hp]
      simp only [decide_eq_true_eq]
      omega
    rw [if_neg (by rw [hcond, hbit]; simp), if_neg ha55]
    rw [or_high_mask a c ha hc]
    push_cast
    omega

theorem u56_roundtrip (t : Int) (hlo : -(36028797018963968 : Int) ≤ t)
    (hhi : t < 36028797018963968) (c : Nat) (hc : c < 256) :
    u56_to_i64 (i64ToU64 t % 72057594037927936 + 72057594037927936 * c) = t := by
  rw [u56_to_i64_packed _ c (Nat.mod_lt _ (by norm_num)) hc]
  rcases le_or_lt 0 t with hpos | hneg
  · have he : t % (18446744073709551616 : Int) = t :=
      Int.emod_eq_of_lt hpos (by omega)
    have h1 : i64ToU64 t = t.toNat := by
      unfold i64ToU64
      rw [he]
    have h2 : t.toNat < 36028797018963968 := by omega
    rw [h1, Nat.mod_eq_of_lt (by omega), if_pos h2]
    omega
  · have he : t % (18446744073709551616 : Int) = t + 18446744073709551616 := by
      have hshift : (t + 18446744073709551616 * 1) % (18446744073709551616 : Int) =
          t % 18446744073709551616 := Int.add_mul_emod_self_left t 18446744073709551616 1
      have hsmall : (t + 18446744073709551616) % (18446744073709551616 : Int) =
          t + 18446744073709551616 := Int.emod_eq_of_lt (by omega) (by omega)
      calc t % (18446744073709551616 : Int)
          = (t + 18446744073709551616 * 1) % 18446744073709551616 := hshift.symm
        _ = (t + 18446744073709551616) % 18446744073709551616 := by norm_num
        _ = t + 18446744073709551616 := hsmall
    have h1 : (i64ToU64 t : Int) = t + 18446744073709551616 := by
      unfold i64ToU64
      rw [he, Int.toNat_of_nonneg (by omega)]
    have hmod : (i64ToU64 t % 72057594037927936 : Nat) = (t + 72057594037927936).toNat := by
      omega
    rw [hmod, if_neg (by omega)]
    omega

theorem headerBytes_eq (h : PakHeaderM) :
    headerBytes h =
      [75, 67, 65, 80,
        h.version % 256, h.version / 256 % 256, h.version / 65536 % 256,
        h.version / 16777216 % 256,
        h.crc32 % 256, h.crc32 / 256 % 256, h.crc32 / 65536 % 256, h.crc32 / 16777216 % 256,
        h.unk0c % 256,
        i64ToU64 h.timestamp % 256, i64ToU64 h.timestamp / 256 % 256,
        i64ToU64 h.timestamp / 65536 % 256, i64ToU64 h.timestamp / 16777216 % 256,
        i64ToU64 h.timestamp / 4294967296 % 256, i64ToU64 h.timestamp / 1099511627776 % 256,
        i64ToU64 h.timestamp / 281474976710656 % 256,
        h.assets_list_size_decompressed % 256, h.assets_list_size_decompressed / 256 % 256,
        h.assets_list_size_decompressed / 65536 % 256,
        h.assets_list_size_decompressed / 16777216 % 256,
        h.assets_list_size_compressed % 256, h.assets_list_size_compressed / 256 % 256,
        h.assets_list_size_compressed / 65536 % 256,
        h.assets_list_size_compressed / 16777216 % 256,
        (djb2a ASSETS_LIST_NAME ^^^ h.assets_list_size_compressed) % 256,
        (djb2a ASSETS_LIST_NAME ^^^ h.assets_list_size_compressed) / 256 % 256,
        (djb2a ASSETS_LIST_NAME ^^^ h.assets_list_size_compressed) / 65536 % 256,
        (djb2a ASSETS_LIST_NAME ^^^ h.assets_list_size_compressed) / 16777216 % 256,
        h.plaintext_crc32 % 256, h.plaintext_crc32 / 256 % 256, h.plaintext_crc32 / 65536 % 256,
        h.plaintext_crc32 / 16777216 % 256,
        h.ciphertext_crc32 % 256, h.ciphertext_crc32 / 256 % 256,
        h.ciphertext_crc32 / 65536 % 256, h.ciphertext_crc32 / 16777216 % 256] := rfl

set_option maxHeartbeats 2000000 in
theorem parseHeader_headerBytes (h : PakHeaderM) :
    parseHeader (headerBytes h) = Except.ok
      { version := h.version % M32
        crc32 := h.crc32 % M32
        unk0c := h.unk0c % 256
        timestamp := u56_to_i64 (i64ToU64 h.timestamp % 72057594037927936 +
          72057594037927936 * (h.assets_list_size_decompressed % 256))
        assets_list_size_decompressed := h.assets_list_size_decompressed % M32
        assets_list_size_compressed := h.assets_list_size_compressed % M32
        plaintext_crc32 := h.plaintext_crc32 % M32
        ciphertext_crc32 := h.ciphertext_crc32 % M32 } := by
  have hraw : parseHeader (headerBytes h) = Except.ok
      { version := h.version % 256 + 256 * (h.version / 256 % 256) +
          65536 * (h.version / 65536 % 256) + 16777216 * (h.version / 16777216 % 256)
        crc32 := h.crc32 % 256 + 256 * (h.crc32 / 256 % 256) +
          65536 * (h.crc32 / 65536 % 256) + 16777216 * (h.crc32 / 16777216 % 256)
        unk0c := h.unk0c % 256
        timestamp := u56_to_i64 (i64ToU64 h.timestamp % 256 +
          256 * (i64ToU64 h.timestamp / 256 % 256) +
          65536 * (i64ToU64 h.timestamp / 65536 % 256) +
          16777216 * (i64ToU64 h.timestamp / 16777216 % 256) +
          4294967296 * (i64ToU64 h.timestamp / 4294967296 % 256) +
          1099511627776 * (i64ToU64 h.timestamp / 1099511627776 % 256) +
          281474976710656 * (i64ToU64 h.timestamp / 281474976710656 % 256) +
          72057594037927936 * (h.assets_list_size_decompressed % 256))
        assets_list_size_decompressed := h.assets_list_size_decompressed % 256 +
          256 * (h.assets_list_size_decompressed / 256 % 256) +
          65536 * (h.assets_list_size_decompressed / 65536 % 256) +
          16777216 * (h.assets_list_size_decompressed / 16777216 % 256)
        assets_list_size_compressed := h.assets_list_size_compressed % 256 +
          256 * (h.assets_list_size_compressed / 256 % 256) +
          65536 * (h.assets_list_size_compressed / 65536 % 256) +
          16777216 * (h.assets_list_size_compressed / 16777216 % 256)
        plaintext_crc32 := h.plaintext_crc32 % 256 + 256 * (h.plaintext_crc32 / 256 % 256) +
          65536 * (h.plaintext_crc32 / 65536 % 256) + 16777216 * (h.plaintext_crc32 / 16777216 % 256)
        ciphertext_crc32 := h.ciphertext_crc32 % 256 + 256 * (h.ciphertext_crc32 / 256 % 256) +
          65536 * (h.ciphertext_crc32 / 65536 % 256) +
          16777216 * (h.ciphertext_crc32 / 16777216 % 256) } := rfl
  rw [hraw]
  have hM : M32 = 4294967296 := rfl
  refine congrArg Except.ok ?_
  refine (PakHeaderM.mk.injEq _ _ _ _ _ _ _ _ _ _ _ _ _ _ _ _).mpr
    ⟨by rw [hM]; omega, by rw [hM]; omega, rfl, congrArg u56_to_i64 (by omega),
      by rw [hM]; omega, by rw [hM]; omega, by rw [hM]; omega, by rw [hM]; omega⟩

set_option maxHeartbeats 2000000 in
/-- C6: the header's timestamp is a signed 56-bit two's-complement
value packed into 7 bytes with its sign bit at bit 55; on read it is
sign-extended to 64 bits via an 8-byte read whose byte range overlaps
the following index decompressed-size field by exactly one byte: the
serialized header is 40 bytes, byte 20 (the eighth byte of the
timestamp read window, which ends at offset 21) is the first byte of
the index decompressed-size field (which begins at offset 20), the
timestamp and the size field round-trip through the header bytes, and
overwriting the shared byte changes the size field read but never the
sign-extended timestamp. -/
theorem c6_timestamp_layout (h : PakHeaderM)
    (hlo : -(36028797018963968 : Int) ≤ h.timestamp) (hhi : h.timestamp < 36028797018963968) :
    (headerBytes h).length = 40 ∧
    (headerBytes h).getD 20 0 = h.assets_list_size_decompressed % 256 ∧
    (∃ h2, parseHeader (headerBytes h) = Except.ok h2 ∧ h2.timestamp = h.timestamp ∧
      h2.assets_list_size_decompressed = h.assets_list_size_decompressed % M32) ∧
    ∀ b, b < 256 →
      u56_to_i64 (readU64LE (writeBytes (headerBytes h) 20 [b]) 13) = h.timestamp ∧
      readU32LE (writeBytes (headerBytes h) 20 [b]) 20 % 256 = b := by
  refine ⟨rfl, rfl, ?_, ?_⟩
  · refine ⟨_, parseHeader_headerBytes h, ?_, rfl⟩
    show u56_to_i64 (i64ToU64 h.timestamp % 72057594037927936 +
      72057594037927936 * (h.assets_list_size_decompressed % 256)) = h.timestamp
    exact u56_roundtrip h.timestamp hlo hhi _ (Nat.mod_lt _ (by norm_num))
  · intro b hb
    constructor
    · have hr : readU64LE (writeBytes (headerBytes h) 20 [b]) 13 =
          i64ToU64 h.timestamp % 256 + 256 * (i64ToU64 h.timestamp / 256 % 256) +
          65536 * (i64ToU64 h.timestamp / 65536 % 256) +
          16777216 * (i64ToU64 h.timestamp / 16777216 % 256) +
          4294967296 * (i64ToU64 h.timestamp / 4294967296 % 256) +
          1099511627776 * (i64ToU64 h.timestamp / 1099511627776 % 256) +
          281474976710656 * (i64ToU64 h.timestamp / 281474976710656 % 256) +
          72057594037927936 * b := rfl
      rw [hr]
      have harg : i64ToU64 h.timestamp % 256 + 256 * (i64ToU64 h.timestamp / 256 % 256) +
          65536 * (i64ToU64 h.timestamp / 65536 % 256) +
          16777216 * (i64ToU64 h.timestamp / 16777216 % 256) +
          4294967296 * (i64ToU64 h.timestamp / 4294967296 % 256) +
          1099511627776 * (i64ToU64 h.timestamp / 1099511627776 % 256) +
          281474976710656 * (i64ToU64 h.timestamp / 281474976710656 % 256) +
          72057594037927936 * b =
          i64ToU64 h.timestamp % 72057594037927936 + 72057594037927936 * b := by
        omega
      rw [harg]
      exact u56_roundtrip h.timestamp hlo hhi b hb
    · have hr2 : readU32LE (writeBytes (headerBytes h) 20 [b]) 20 =
          b + 256 * (h.assets_list_size_decompressed / 256 % 256) +
          65536 * (h.assets_list_size_decompressed / 65536 % 256) +
          16777216 * (h.assets_list_size_decompressed / 16777216 % 256) := rfl
      rw [hr2]
      omega

/-- Witness for C6 at a concrete header with a negative timestamp. -/
theorem c6_timestamp_layout_witness :
    -(36028797018963968 : Int) ≤ (-5 : Int) ∧ (-5 : Int) < 36028797018963968 ∧
    ((headerBytes
        { version := 103, crc32 := 7, unk0c := 1, timestamp := -5,
          assets_list_size_decompressed := 37, assets_list_size_compressed := 37,
          plaintext_crc32 := 11, ciphertext_crc32 := 13 }).length = 40 ∧
      (headerBytes
        { version := 103, crc32 := 7, unk0c := 1, timestamp := -5,
          assets_list_size_decompressed := 37, assets_list_size_compressed := 37,
          plaintext_crc32 := 11, ciphertext_crc32 := 13 }).getD 20 0 = 37 % 256 ∧
      (∃ h2, parseHeader (headerBytes
          { version := 103, crc32 := 7, unk0c := 1, timestamp := -5,
            assets_list_size_decompressed := 37, assets_list_size_compressed := 37,
            plaintext_crc32 := 11, ciphertext_crc32 := 13 }) = Except.ok h2 ∧
        h2.timestamp = -5 ∧ h2.assets_list_size_decompressed = 37 % M32) ∧
      ∀ b, b < 256 →
        u56_to_i64 (readU64LE (writeBytes (headerBytes
          { version := 103, crc32 := 7, unk0c := 1, timestamp := -5,
            assets_list_size_decompressed := 37, assets_list_size_compressed := 37,
            plaintext_crc32 := 11, ciphertext_crc32 := 13 }) 20 [b]) 13) = -5 ∧
        readU32LE (writeBytes (headerBytes
          { version := 103, crc32 := 7, unk0c := 1, timestamp := -5,
            assets_list_size_decompressed := 37, assets_list_size_compressed := 37,
            plaintext_crc32 := 11, ciphertext_crc32 := 13 }) 20 [b]) 20 % 256 = b) :=
  ⟨by decide, by decide,
    c6_timestamp_layout
      { version := 103, crc32 := 7, unk0c := 1, timestamp := -5,
        assets_list_size_decompressed := 37, assets_list_size_compressed := 37,
        plaintext_crc32 := 11, ciphertext_crc32 := 13 } (by decide) (by decide)⟩

/-! ### C4: the whole-file checksum slot -/

/-- XOR of two 32-bit values is a 32-bit value. -/
theorem xor_lt_M32 (a b : Nat) (ha : a < M32) (hb : b < M32) : a ^^^ b < M32 := by
  have h32 : M32 = 2 ^ 32 := by norm_num [M32]
  rw [h32] at ha hb ⊢
  exact Nat.xor_lt_two_pow ha hb

/-- One CRC bit step keeps the state below 2^32. -/
theorem crcBit_lt (s : Nat) (h : s < M32) : crcBit s < M32 := by
  unfold crcBit
  by_cases h2 : s % 2 = 1
  · rw [if_pos h2]
    exact xor_lt_M32 _ _ (lt_of_le_of_lt (Nat.div_le_self s 2) h) (by norm_num [M32])
  · rw [if_neg h2]
    exact lt_of_le_of_lt (Nat.div_le_self s 2) h

/-- One CRC byte step keeps the state below 2^32. -/
theorem crcByte_lt (s b : Nat) (h : s < M32) : crcByte s b < M32 := by
  have h0 : s ^^^ b % 256 < M32 :=
    xor_lt_M32 _ _ h (lt_of_lt_of_le (Nat.mod_lt b (by norm_num)) (by norm_num [M32]))
  unfold crcByte
  exact crcBit_lt _ (crcBit_lt _ (crcBit_lt _ (crcBit_lt _ (crcBit_lt _ (crcBit_lt _
    (crcBit_lt _ (crcBit_lt _ h0)))))))

/-- The raw CRC fold keeps the state below 2^32. -/
theorem crcFold_lt (s : Nat) (data : List Nat) (h : s < M32) : crcFold s data < M32 := by
  unfold crcFold
  exact foldl_preserves (fun x => x < M32) crcByte data (fun w b hw _ => crcByte_lt w b hw) s h

/-- A JAMCRC32 value with a 32-bit seed is a 32-bit value. -/
theorem jamcrc32_lt (init : Nat) (data : List Nat) (h : init < M32) : jamcrc32 init data < M32 := by
  have hm : (4294967295 : Nat) < M32 := by norm_num [M32]
  unfold jamcrc32 crc32fast_finalize
  exact xor_lt_M32 _ _ (xor_lt_M32 _ _
    (crcFold_lt _ data (xor_lt_M32 _ _ (xor_lt_M32 _ _ h hm) hm)) hm) hm

/-- Overwriting a slice strictly inside a file preserves its length. -/
theorem writeBytes_length (f : List Nat) (pos : Nat) (bs : List Nat)
    (h : pos + bs.length ≤ f.length) : (writeBytes f pos bs).length = f.length := by
  unfold writeBytes
  rw [List.length_append, List.length_append, List.length_take, List.length_drop]
  omega

/-- Bytes at or past the end of an overwritten slice are unchanged. -/
theorem writeBytes_drop (f : List Nat) (pos : Nat) (bs : List Nat) (k : Nat)
    (hk : pos + bs.length ≤ k) (hpos : pos ≤ f.length) :
    (writeBytes f pos bs).drop k = f.drop k := by
  unfold writeBytes
  have hlen : (f.take pos ++ bs).length = pos + bs.length := by
    rw [List.length_append, List.length_take]; omega
  have hk2 : k = (f.take pos ++ bs).length + (k - (pos + bs.length)) := by omega
  rw [hk2, List.drop_append, List.drop_drop, hlen]

/-- getD past an appended prefix reads the suffix. -/
theorem getD_append_right (l₁ l₂ : List Nat) (i : Nat) :
    (l₁ ++ l₂).getD (l₁.length + i) 0 = l₂.getD i 0 := by
  induction l₁ with
  | nil => simp
  | cons a t ih =>
    rw [List.cons_append, show (a :: t).length + i = t.length + i + 1 by
      simp only [List.length_cons]; omega, List.getD_cons_succ]
    exact ih

/-- Reading back a u32 written at offset 8 recovers the value mod 2^32. -/
theorem readU32LE_writeBytes (f : List Nat) (c : Nat) (hpos : 8 ≤ f.length) :
    readU32LE (writeBytes f 8 (u32le c)) 8 = c % M32 := by
  have hlen : (f.take 8).length = 8 := by rw [List.length_take]; omega
  have g : ∀ j : Nat,
      (f.take 8 ++ (u32le c ++ f.drop (8 + (u32le c).length))).getD (8 + j) 0 =
        (u32le c ++ f.drop (8 + (u32le c).length)).getD j 0 := by
    intro j
    rw [show (8 : Nat) + j = (f.take 8).length + j by omega]
    exact getD_append_right _ _ _
  have g0 := g 0
  rw [Nat.add_zero] at g0
  unfold writeBytes readU32LE
  rw [List.append_assoc, g0, g 1, g 2, g 3]
  show c % 256 + 256 * (c / 256 % 256) + 65536 * (c / 65536 % 256) +
      16777216 * (c / 16777216 % 256) = c % M32
  rw [show M32 = 4294967296 from rfl]
  omega

/-- The serialized header is exactly PAK_HEADER_SIZE = 40 bytes. -/
theorem headerBytes_length (h : PakHeaderM) : (headerBytes h).length = 40 := by
  rw [headerBytes_eq]
  rfl

/-- fix_header_crc32: the stored slot at offset 8 equals the JAMCRC32 of the
patched file from offset 20 to the end, seeded with the file length mod 2^32. -/
theorem fix_header_crc32_spec (f : List Nat) (h : 40 ≤ f.length) :
    readU32LE (fix_header_crc32 f) PAK_CRC32_OFFSET =
      jamcrc32 ((fix_header_crc32 f).length % M32)
        ((fix_header_crc32 f).drop PAK_CRC32_START_OFFSET) := by
  have hoff : PAK_CRC32_OFFSET = 8 := rfl
  have hsoff : PAK_CRC32_START_OFFSET = 20 := rfl
  unfold fix_header_crc32
  rw [hoff, hsoff]
  set c := jamcrc32 (f.length % M32) (f.drop 20) with hc
  have hu : (u32le c).length = 4 := rfl
  have hlen : (writeBytes f 8 (u32le c)).length = f.length :=
    writeBytes_length f 8 (u32le c) (by omega)
  have hdrop : (writeBytes f 8 (u32le c)).drop 20 = f.drop 20 :=
    writeBytes_drop f 8 (u32le c) 20 (by omega) (by omega)
  rw [hlen, hdrop, ← hc, readU32LE_writeBytes f c (by omega)]
  exact Nat.mod_eq_of_lt (jamcrc32_lt _ _ (Nat.mod_lt _ (by norm_num [M32])))

/-- C4 (amended): for every container produced by pack, the whole-file checksum
stored in the 4-byte header slot at offset 8 equals the ComplementSeeded
(JAMCRC32) checksum seeded with the total file size truncated to 32 bits,
accumulated over the bytes from offset 0x14 — the byte immediately after the
7-byte timestamp field, i.e. the start of the two size fields, not the byte
after them — through end of file, so recomputing it over that range matches the
stored value. -/
theorem c4_whole_file_checksum (key : List Nat) (timestamp : Int)
    (compress_header compress_files : Bool) (comp : List Nat → List Nat)
    (entries : List (List Nat × List Nat)) (out : List Nat)
    (hout : pack key timestamp compress_header compress_files comp entries = some out) :
    readU32LE out PAK_CRC32_OFFSET =
      jamcrc32 (out.length % M32) (out.drop PAK_CRC32_START_OFFSET) := by
  have hout2 : packBytes key timestamp compress_files comp entries = out := by
    unfold pack at hout
    cases compress_header with
    | true => simp at hout
    | false => simpa using hout
  rw [← hout2]
  unfold packBytes
  simp only []
  refine fix_header_crc32_spec _ ?_
  simp only [List.length_append, headerBytes_length]
  omega

/-- C4 counterexample to the original offset wording: for a freshly packed
empty container, the stored slot does NOT match the checksum accumulated from
offset 28 — the byte immediately after the two size fields (which sit at
offsets 0x14 and 0x18). -/
theorem c4_whole_file_checksum_counterexample :
    pack TEST_KEY 99 false false (fun d => d) [] =
      some (packBytes TEST_KEY 99 false (fun d => d) []) ∧
    readU32LE (packBytes TEST_KEY 99 false (fun d => d) []) PAK_CRC32_OFFSET ≠
      jamcrc32 ((packBytes TEST_KEY 99 false (fun d => d) []).length % M32)
        ((packBytes TEST_KEY 99 false (fun d => d) []).drop 28) :=
  ⟨rfl, by decide⟩

/-- C4 witness: the amended statement instantiated on a freshly packed empty
container. -/
theorem c4_whole_file_checksum_witness :
    readU32LE (packBytes TEST_KEY 99 false (fun d => d) []) PAK_CRC32_OFFSET =
      jamcrc32 ((packBytes TEST_KEY 99 false (fun d => d) []).length % M32)
        ((packBytes TEST_KEY 99 false (fun d => d) []).drop PAK_CRC32_START_OFFSET) :=
  c4_whole_file_checksum TEST_KEY 99 false false (fun d => d) [] _ rfl

/-! ### C10: the index is always stored uncompressed -/

/-- A serialized PakAsset record is 0x20 bytes plus the name. -/
theorem serializeAsset_length (a : PakAssetM) :
    (serializeAsset a).length = 32 + a.name.length := by
  unfold serializeAsset
  simp only [List.length_append, u32le, List.length_cons, List.length_nil]
  omega

/-- Length of the concatenated serialized records. -/
theorem flatten_map_length (l : List PakAssetM) :
    ((l.map serializeAsset).flatten).length = (l.map (fun a => 32 + a.name.length)).sum := by
  induction l with
  | nil => rfl
  | cons a tl ih =>
    rw [List.map_cons,
      show ((serializeAsset a :: tl.map serializeAsset).flatten) =
        serializeAsset a ++ (tl.map serializeAsset).flatten from rfl,
      List.length_append, serializeAsset_length, ih, List.map_cons, List.sum_cons]

/-- Length of a serialized assets list. -/
theorem serializePakAssets_length (l : List PakAssetM) :
    (serializePakAssets l).length = 4 + (l.map (fun a => 32 + a.name.length)).sum := by
  unfold serializePakAssets
  rw [List.length_append, flatten_map_length]
  rfl

/-- Shifted form of the byte-count fold of pack. -/
theorem foldl_add_shift (l : List (List Nat × List Nat)) :
    ∀ n : Nat, l.foldl (fun n e => n + 32 + e.1.length) n =
      n + (l.map (fun e => 32 + e.1.length)).sum := by
  induction l with
  | nil => intro n; simp
  | cons a tl ih =>
    intro n
    rw [List.foldl_cons, ih, List.map_cons, List.sum_cons]
    omega

/-- The precomputed assets-list byte count as a sum. -/
theorem assetsListBytesLen_eq (entries : List (List Nat × List Nat)) :
    assetsListBytesLen entries = 4 + (entries.map (fun e => 32 + e.1.length)).sum := by
  unfold assetsListBytesLen
  rw [foldl_add_shift]
  omega

/-- The per-record byte counts of the assets produced by packEntries
are those of the input entries. -/
theorem packEntries_map_name (key : List Nat) (cf : Bool) (comp : List Nat → List Nat) :
    ∀ (entries : List (List Nat × List Nat)) (off : Nat),
      ((packEntries key cf comp entries off).1).map (fun a => 32 + a.name.length) =
        entries.map (fun e => 32 + e.1.length) := by
  intro entries
  induction entries with
  | nil => intro off; rfl
  | cons e tl ih =>
    obtain ⟨name, data⟩ := e
    intro off
    have hexp : (packEntries key cf comp ((name, data) :: tl) off).1 =
        { name := name
          size_decompressed := data.length
          size_compressed := (maybe_compress cf comp data).length
          offset := off
          plaintext_crc32 := crc32fast_hash (maybe_compress cf comp data)
          ciphertext_crc32 := crc32fast_hash (encrypt name key (maybe_compress cf comp data)) } ::
          (packEntries key cf comp tl
            (off + (encrypt name key (maybe_compress cf comp data)).length)).1 := rfl
    rw [hexp, List.map_cons, ih, List.map_cons]

/-- The serialized assets list of packEntries has exactly the byte
count precomputed by pack. -/
theorem serializePakAssets_packEntries_length (key : List Nat) (cf : Bool)
    (comp : List Nat → List Nat) (entries : List (List Nat × List Nat)) (off : Nat) :
    (serializePakAssets (packEntries key cf comp entries off).1).length =
      assetsListBytesLen entries := by
  rw [serializePakAssets_length, packEntries_map_name, assetsListBytesLen_eq]

/-- fix_header_crc32 over a serialized header only patches the crc32
field. -/
theorem fix_header_crc32_headerBytes (h : PakHeaderM) (t : List Nat) :
    fix_header_crc32 (headerBytes h ++ t) =
      headerBytes { h with crc32 := (jamcrc32 ((headerBytes h ++ t).length % M32)
        ((headerBytes h ++ t).drop 20)) } ++ t := rfl

set_option maxHeartbeats 2000000 in
/-- Bytes appended after the 40-byte header do not change how it
parses. -/
theorem parseHeader_append (h : PakHeaderM) (t : List Nat) :
    parseHeader (headerBytes h ++ t) = parseHeader (headerBytes h) := by
  have hlen : (headerBytes h ++ t).length = 40 + t.length := by
    rw [List.length_append, headerBytes_length]
  have hlen2 : (headerBytes h).length = 40 := headerBytes_length h
  have hm1 : (headerBytes h ++ t).take 4 = [75, 67, 65, 80] := rfl
  have hm2 : (headerBytes h).take 4 = [75, 67, 65, 80] := rfl
  have hA1 : ¬(40 + t.length < 4) := by omega
  have hB : ¬(([75, 67, 65, 80] : List Nat) ≠ [75, 67, 65, 80]) := by simp
  have hC1 : ¬(40 + t.length < 40) := by omega
  have hA2 : ¬((40 : Nat) < 4) := by omega
  have hC2 : ¬((40 : Nat) < 40) := by omega
  unfold parseHeader
  rw [hlen, hlen2, hm1, hm2]
  rw [if_neg hA1, if_neg hB, if_neg hC1, if_neg hA2, if_neg hB, if_neg hC2]
  rfl

/-- When the two recorded index sizes agree, the index decompressor is
never consulted. -/
theorem decodeIndex_indep (f key : List Nat) (d1 d2 : List Nat → Nat → Option (List Nat))
    (h : PakHeaderM)
    (hs : h.assets_list_size_compressed = h.assets_list_size_decompressed) :
    decodeIndex f key d1 h = decodeIndex f key d2 h := by
  unfold decodeIndex
  rw [hs]
  simp

/-- If every successful header parse of a file reports equal index
sizes, unpack does not depend on the index decompressor. -/
theorem unpack_dcIdx_indep (f key : List Nat) (d1 d2 dcA : List Nat → Nat → Option (List Nat))
    (root : PathM)
    (h : ∀ hh, parseHeader f = .ok hh →
      hh.assets_list_size_compressed = hh.assets_list_size_decompressed) :
    unpack f key d1 dcA root = unpack f key d2 dcA root := by
  unfold unpack
  cases hp : parseHeader f with
  | error e => rfl
  | ok hh =>
    have hd := decodeIndex_indep f key d1 d2 hh (h hh hp)
    simp only [hd]

set_option maxHeartbeats 2000000 in
/-- C10: every container produced by pack stores the entry index
uncompressed: requesting index compression aborts with no output
(todo! in the source), and otherwise the written header parses back
with assets_list_size_compressed equal to
assets_list_size_decompressed, both the serialized index length
truncated to 32 bits, so decode of a freshly packed file never
consults the index decompressor. -/
theorem c10_index_uncompressed (key : List Nat) (timestamp : Int) (compress_files : Bool)
    (comp : List Nat → List Nat) (entries : List (List Nat × List Nat)) (out : List Nat)
    (hout : pack key timestamp false compress_files comp entries = some out) :
    pack key timestamp true compress_files comp entries = none ∧
    ∃ h2, parseHeader out = .ok h2 ∧
      h2.assets_list_size_compressed = h2.assets_list_size_decompressed ∧
      h2.assets_list_size_decompressed =
        (serializePakAssets (packEntries key compress_files comp entries 0).1).length % M32 ∧
      ∀ dcIdx dcIdx' dcA root,
        unpack out key dcIdx dcA root = unpack out key dcIdx' dcA root := by
  have hout2 : packBytes key timestamp compress_files comp entries = out :=
    Option.some.inj ((show some (packBytes key timestamp compress_files comp entries) =
      pack key timestamp false compress_files comp entries from rfl).trans hout)
  rw [← hout2]
  have hpb : packBytes key timestamp compress_files comp entries =
      fix_header_crc32 (headerBytes
        { version := FILE_VERSION
          crc32 := 0
          unk0c := 1
          timestamp := timestamp
          assets_list_size_decompressed := assetsListBytesLen entries
          assets_list_size_compressed := assetsListBytesLen entries
          plaintext_crc32 := (crc32fast_hash
            (serializePakAssets (packEntries key compress_files comp entries 0).1))
          ciphertext_crc32 := (crc32fast_hash (encrypt ASSETS_LIST_NAME key
            (serializePakAssets (packEntries key compress_files comp entries 0).1))) } ++
        (encrypt ASSETS_LIST_NAME key
            (serializePakAssets (packEntries key compress_files comp entries 0).1) ++
          (packEntries key compress_files comp entries 0).2)) := rfl
  rw [hpb, fix_header_crc32_headerBytes]
  refine ⟨rfl, _, (parseHeader_append _ _).trans (parseHeader_headerBytes _), rfl, ?_, ?_⟩
  · rw [serializePakAssets_packEntries_length]
  · intro dcIdx dcIdx' dcA root
    refine unpack_dcIdx_indep _ key dcIdx dcIdx' dcA root ?_
    intro hh hhp
    have he2 := Except.ok.inj
      (((parseHeader_append _ _).trans (parseHeader_headerBytes _)).symm.trans hhp)
    rw [← he2]

/-- C10 witness: pack of the empty entry list. -/
theorem c10_index_uncompressed_witness :
    pack TEST_KEY 99 true false (fun d => d) [] = none ∧
    ∃ h2, parseHeader (packBytes TEST_KEY 99 false (fun d => d) []) = .ok h2 ∧
      h2.assets_list_size_compressed = h2.assets_list_size_decompressed ∧
      h2.assets_list_size_decompressed =
        (serializePakAssets (packEntries TEST_KEY false (fun d => d) [] 0).1).length % M32 ∧
      ∀ dcIdx dcIdx' dcA root,
        unpack (packBytes TEST_KEY 99 false (fun d => d) []) TEST_KEY dcIdx dcA root =
          unpack (packBytes TEST_KEY 99 false (fun d => d) []) TEST_KEY dcIdx' dcA root :=
  c10_index_uncompressed TEST_KEY 99 false (fun d => d) [] _ rfl

/-! ### C8: compression is kept only when strictly smaller -/

/-- C8: maybe_compress keeps the compressed form only when it is
strictly smaller than the raw form; otherwise the raw bytes are stored
and the packed entry records compressed_size = decompressed_size = raw
length; an entry with equal recorded sizes is never passed through the
payload decompressor on read, and the index with equal recorded sizes
is never passed through the index decompressor. -/
theorem c8_compression_rule (cf : Bool) (comp : List Nat → List Nat)
    (key name data : List Nat) (entriesRest : List (List Nat × List Nat)) (off : Nat)
    (f fkey : List Nat) (d1 d2 : List Nat → Nat → Option (List Nat)) (root : PathM)
    (base : Nat) (a : PakAssetM) (h : PakHeaderM) :
    ((comp data).length < data.length → maybe_compress true comp data = comp data) ∧
    (¬ (comp data).length < data.length → maybe_compress cf comp data = data) ∧
    (¬ (comp data).length < data.length →
      ∃ a1 tail, (packEntries key cf comp ((name, data) :: entriesRest) off).1 = a1 :: tail ∧
        a1.size_compressed = a1.size_decompressed ∧ a1.size_decompressed = data.length) ∧
    (a.size_compressed = a.size_decompressed →
      processOneAsset f fkey d1 root base a = processOneAsset f fkey d2 root base a) ∧
    (h.assets_list_size_compressed = h.assets_list_size_decompressed →
      decodeIndex f fkey d1 h = decodeIndex f fkey d2 h) := by
  have hmc : ¬ (comp data).length < data.length → maybe_compress cf comp data = data := by
    intro hge
    unfold maybe_compress
    rw [if_neg (fun hc => hge hc.2)]
  refine ⟨?_, hmc, ?_, ?_, fun hs => decodeIndex_indep f fkey d1 d2 h hs⟩
  · intro hlt
    unfold maybe_compress
    rw [if_pos ⟨rfl, hlt⟩]
  · intro hge
    refine ⟨_, _, rfl, ?_, rfl⟩
    rw [hmc hge]
  · intro hs
    unfold processOneAsset
    rw [hs]
    simp

/-- C8 witness: a 2-byte payload whose compressed form is 1 byte is
stored compressed, and an entry with equal recorded sizes is processed
identically under two different payload decompressors. -/
theorem c8_compression_rule_witness :
    maybe_compress true (fun d => List.take 1 d) [49, 50] = [49] ∧
    processOneAsset [] TEST_KEY (fun _ _ => none)
        { isAbs := false, comps := [[111, 117, 116]] } 40
        { name := [97], size_decompressed := 2, size_compressed := 2, offset := 0,
          plaintext_crc32 := 0, ciphertext_crc32 := 0 } =
      processOneAsset [] TEST_KEY (fun b _ => some b)
        { isAbs := false, comps := [[111, 117, 116]] } 40
        { name := [97], size_decompressed := 2, size_compressed := 2, offset := 0,
          plaintext_crc32 := 0, ciphertext_crc32 := 0 } := by
  have H := c8_compression_rule true (fun d => List.take 1 d) TEST_KEY testName [49, 50] [] 0
    [] TEST_KEY (fun _ _ => none) (fun b _ => some b)
    { isAbs := false, comps := [[111, 117, 116]] } 40
    { name := [97], size_decompressed := 2, size_compressed := 2, offset := 0,
      plaintext_crc32 := 0, ciphertext_crc32 := 0 }
    { version := 103, crc32 := 0, unk0c := 1, timestamp := 0,
      assets_list_size_decompressed := 4, assets_list_size_compressed := 4,
      plaintext_crc32 := 0, ciphertext_crc32 := 0 }
  exact ⟨H.1 (by decide), H.2.2.2.1 rfl⟩

/-! ### C5: parent-directory entries and the output root -/

instance (root p : PathM) : Decidable (underRoot root p) :=
  inferInstanceAs (Decidable (p.isAbs = root.isAbs ∧ root.comps <+: p.comps))

/-- Joining a relative path onto the root stays under the root (in the
syntactic prefix sense). -/
theorem joinPath_underRoot (root p : PathM) (habs : p.isAbs = false) :
    underRoot root (joinPath root p) := by
  have hj : joinPath root p = { isAbs := root.isAbs, comps := root.comps ++ p.comps } := by
    unfold joinPath
    rw [if_neg (by rw [habs]; simp)]
  rw [hj]
  exact ⟨rfl, List.prefix_append _ _⟩

/-- An asset whose name contains a parent-directory segment is always
rejected by processOneAsset (with traversal, or an earlier error). -/
theorem processOneAsset_parentDir_error (f key : List Nat)
    (dcA : List Nat → Nat → Option (List Nat)) (root : PathM) (base : Nat) (a : PakAssetM)
    (ha : hasParentDir (pathOfName a.name) = true) :
    ∃ e, processOneAsset f key dcA root base a = Except.error e := by
  unfold processOneAsset
  by_cases h1 : utf8Valid a.name = false
  · rw [if_pos h1]
    exact ⟨_, rfl⟩
  · rw [if_neg h1]
    cases decrypt_from_reader f a.name (base + a.offset) a.size_compressed key with
    | none => exact ⟨UnpackError.truncated, rfl⟩
    | some data0 =>
      show ∃ e, (match (if a.size_compressed ≠ a.size_decompressed then
          dcA data0 a.size_decompressed else some data0) with
        | none => (Except.error UnpackError.decompressFail :
            Except UnpackError (PathM × List Nat))
        | some data =>
          if hasParentDir (pathOfName a.name) then Except.error UnpackError.traversal
          else if (joinPath root (pathOfName a.name)).comps = [] then
            Except.error UnpackError.noParent
          else Except.ok (joinPath root (pathOfName a.name), data)) = Except.error e
      cases (if a.size_compressed ≠ a.size_decompressed then
          dcA data0 a.size_decompressed else some data0) with
      | none => exact ⟨_, rfl⟩
      | some data =>
        refine ⟨UnpackError.traversal, ?_⟩
        show (if hasParentDir (pathOfName a.name) then
            (Except.error UnpackError.traversal : Except UnpackError (PathM × List Nat))
          else if (joinPath root (pathOfName a.name)).comps = [] then
            Except.error UnpackError.noParent
          else Except.ok (joinPath root (pathOfName a.name), data)) =
          Except.error UnpackError.traversal
        rw [if_pos ha]

/-- What a successful processOneAsset guarantees about its write: the
name passed the parent-directory check, the target is the join of the
root and the name's path, and a non-absolute name lands under the
root. -/
theorem processOneAsset_ok_shape (f key : List Nat)
    (dcA : List Nat → Nat → Option (List Nat)) (root : PathM) (base : Nat) (b : PakAssetM)
    (w : PathM × List Nat) (h : processOneAsset f key dcA root base b = Except.ok w) :
    hasParentDir (pathOfName b.name) = false ∧
    w.1 = joinPath root (pathOfName b.name) ∧
    ((pathOfName b.name).isAbs = false → underRoot root w.1) := by
  unfold processOneAsset at h
  by_cases h1 : utf8Valid b.name = false
  · rw [if_pos h1] at h
    exact Except.noConfusion h
  · rw [if_neg h1] at h
    cases hd : decrypt_from_reader f b.name (base + b.offset) b.size_compressed key with
    | none =>
      rw [hd] at h
      exact Except.noConfusion (show (Except.error UnpackError.truncated :
        Except UnpackError (PathM × List Nat)) = Except.ok w from h)
    | some data0 =>
      rw [hd] at h
      have h2 : (match (if b.size_compressed ≠ b.size_decompressed then
            dcA data0 b.size_decompressed else some data0) with
          | none => (Except.error UnpackError.decompressFail :
              Except UnpackError (PathM × List Nat))
          | some data =>
            if hasParentDir (pathOfName b.name) then Except.error UnpackError.traversal
            else if (joinPath root (pathOfName b.name)).comps = [] then
              Except.error UnpackError.noParent
            else Except.ok (joinPath root (pathOfName b.name), data)) = Except.ok w := h
      cases hdc : (if b.size_compressed ≠ b.size_decompressed then
          dcA data0 b.size_decompressed else some data0) with
      | none =>
        rw [hdc] at h2
        exact Except.noConfusion (show (Except.error UnpackError.decompressFail :
          Except UnpackError (PathM × List Nat)) = Except.ok w from h2)
      | some data =>
        rw [hdc] at h2
        have h3 : (if hasParentDir (pathOfName b.name) then
              (Except.error UnpackError.traversal : Except UnpackError (PathM × List Nat))
            else if (joinPath root (pathOfName b.name)).comps = [] then
              Except.error UnpackError.noParent
            else Except.ok (joinPath root (pathOfName b.name), data)) = Except.ok w := h2
        cases hpd : hasParentDir (pathOfName b.name) with
        | true =>
          rw [hpd, if_pos rfl] at h3
          exact Except.noConfusion h3
        | false =>
          rw [hpd, if_neg (by simp)] at h3
          by_cases hroot : (joinPath root (pathOfName b.name)).comps = []
          · rw [if_pos hroot] at h3
            exact Except.noConfusion h3
          · rw [if_neg hroot] at h3
            have hww := Except.ok.inj h3
            refine ⟨rfl, ?_, ?_⟩
            · rw [← hww]
            · intro habs
              rw [← hww]
              exact joinPath_underRoot root (pathOfName b.name) habs

/-- If the assets list contains a parent-directory entry, the unpack
loop always ends in an error. -/
theorem unpackAssets_err_of_bad (f key : List Nat)
    (dcA : List Nat → Nat → Option (List Nat)) (root : PathM) (base : Nat) :
    ∀ (pre post : List PakAssetM) (a : PakAssetM),
      hasParentDir (pathOfName a.name) = true →
      (unpackAssets f key dcA root base (pre ++ a :: post)).err.isSome = true := by
  intro pre
  induction pre with
  | nil =>
    intro post a ha
    obtain ⟨e, he⟩ := processOneAsset_parentDir_error f key dcA root base a ha
    show (match processOneAsset f key dcA root base a with
      | Except.error e => ({ writes := [], err := some e } : UnpackResult)
      | Except.ok wb =>
        { writes := wb :: (unpackAssets f key dcA root base post).writes,
          err := (unpackAssets f key dcA root base post).err }).err.isSome = true
    rw [he]
    rfl
  | cons b tl ih =>
    intro post a ha
    show (match processOneAsset f key dcA root base b with
      | Except.error e => ({ writes := [], err := some e } : UnpackResult)
      | Except.ok wb =>
        { writes := wb :: (unpackAssets f key dcA root base (tl ++ a :: post)).writes,
          err := (unpackAssets f key dcA root base (tl ++ a :: post)).err }).err.isSome = true
    cases processOneAsset f key dcA root base b with
    | error e => rfl
    | ok wb => exact ih post a ha

/-- Every write performed on a list with a parent-directory entry
comes from an entry strictly before the offending one. -/
theorem unpackAssets_writes_pre (f key : List Nat)
    (dcA : List Nat → Nat → Option (List Nat)) (root : PathM) (base : Nat) :
    ∀ (pre post : List PakAssetM) (a : PakAssetM),
      hasParentDir (pathOfName a.name) = true →
      ∀ w ∈ (unpackAssets f key dcA root base (pre ++ a :: post)).writes,
        ∃ b, b ∈ pre ∧ processOneAsset f key dcA root base b = Except.ok w := by
  intro pre
  induction pre with
  | nil =>
    intro post a ha w hw
    obtain ⟨e, he⟩ := processOneAsset_parentDir_error f key dcA root base a ha
    have hwr : (unpackAssets f key dcA root base ([] ++ a :: post)).writes = [] := by
      show (match processOneAsset f key dcA root base a with
        | Except.error e => ({ writes := [], err := some e } : UnpackResult)
        | Except.ok wb =>
          { writes := wb :: (unpackAssets f key dcA root base post).writes,
            err := (unpackAssets f key dcA root base post).err }).writes = []
      rw [he]
    rw [hwr] at hw
    exact absurd hw (List.not_mem_nil w)
  | cons b tl ih =>
    intro post a ha w hw
    have hsh : unpackAssets f key dcA root base ((b :: tl) ++ a :: post) =
        match processOneAsset f key dcA root base b with
        | Except.error e => { writes := [], err := some e }
        | Except.ok wb =>
          { writes := wb :: (unpackAssets f key dcA root base (tl ++ a :: post)).writes,
            err := (unpackAssets f key dcA root base (tl ++ a :: post)).err } := rfl
    rw [hsh] at hw
    cases hb : processOneAsset f key dcA root base b with
    | error e =>
      rw [hb] at hw
      exact absurd (show w ∈ ([] : List (PathM × List Nat)) from hw) (List.not_mem_nil w)
    | ok wb =>
      rw [hb] at hw
      have hw2 : w ∈ wb :: (unpackAssets f key dcA root base (tl ++ a :: post)).writes := hw
      rcases List.mem_cons.mp hw2 with hweq | hwmem
      · exact ⟨b, List.mem_cons_self b tl, by rw [hweq]; exact hb⟩
      · obtain ⟨c, hc1, hc2⟩ := ih post a ha w hwmem
        exact ⟨c, List.mem_cons_of_mem b hc1, hc2⟩

/-- C5 (amended): if an entry of the index has a name containing a
parent-directory path segment, the unpack loop ends with an error, and
no file is written for the offending entry or any entry after it —
but the writes of the earlier, non-offending entries have already been
performed by then, and such a write lands under the designated output
root only when its entry name is not an absolute path (an absolute
name replaces the root entirely). -/
theorem c5_parent_dir_rejection (f key : List Nat)
    (dcA : List Nat → Nat → Option (List Nat)) (root : PathM) (base : Nat)
    (pre post : List PakAssetM) (a : PakAssetM)
    (ha : hasParentDir (pathOfName a.name) = true) :
    (unpackAssets f key dcA root base (pre ++ a :: post)).err.isSome = true ∧
    ∀ w ∈ (unpackAssets f key dcA root base (pre ++ a :: post)).writes,
      ∃ b, b ∈ pre ∧ processOneAsset f key dcA root base b = Except.ok w ∧
        hasParentDir (pathOfName b.name) = false ∧
        w.1 = joinPath root (pathOfName b.name) ∧
        ((pathOfName b.name).isAbs = false → underRoot root w.1) := by
  refine ⟨unpackAssets_err_of_bad f key dcA root base pre post a ha, ?_⟩
  intro w hw
  obtain ⟨b, hbpre, hbok⟩ := unpackAssets_writes_pre f key dcA root base pre post a ha w hw
  obtain ⟨hpd, hw1, hur⟩ := processOneAsset_ok_shape f key dcA root base b w hbok
  exact ⟨b, hbpre, hbok, hpd, hw1, hur⟩

/-- C5 counterexample to the original wording: a container whose index
is an entry "a" followed by an entry ".." is unpacked with the write
for "a" performed before the traversal error stops the run (decode
does not fail before any file is written), and a container whose only
entry is named "/evil" writes a file outside the output root with no
error at all. -/
theorem c5_parent_dir_rejection_counterexample :
    (unpack
      (headerBytes
        { version := 103, crc32 := 0, unk0c := 1, timestamp := 0,
          assets_list_size_decompressed := 1, assets_list_size_compressed := 0,
          plaintext_crc32 := 0, ciphertext_crc32 := 0 })
      TEST_KEY
      (fun _ _ => some (serializePakAssets
        [{ name := [97], size_decompressed := 1, size_compressed := 0, offset := 0,
           plaintext_crc32 := 0, ciphertext_crc32 := 0 },
         { name := [46, 46], size_decompressed := 1, size_compressed := 0, offset := 0,
           plaintext_crc32 := 0, ciphertext_crc32 := 0 }]))
      (fun _ _ => some [120]) { isAbs := false, comps := [[111, 117, 116]] } =
      { writes := [({ isAbs := false, comps := [[111, 117, 116], [97]] }, [120])],
        err := some UnpackError.traversal }) ∧
    (unpack
      (headerBytes
        { version := 103, crc32 := 0, unk0c := 1, timestamp := 0,
          assets_list_size_decompressed := 1, assets_list_size_compressed := 0,
          plaintext_crc32 := 0, ciphertext_crc32 := 0 })
      TEST_KEY
      (fun _ _ => some (serializePakAssets
        [{ name := [47, 101, 118, 105, 108], size_decompressed := 1, size_compressed := 0,
           offset := 0, plaintext_crc32 := 0, ciphertext_crc32 := 0 }]))
      (fun _ _ => some [120]) { isAbs := false, comps := [[111, 117, 116]] } =
      { writes := [({ isAbs := true, comps := [[101, 118, 105, 108]] }, [120])],
        err := none }) ∧
    ¬ underRoot { isAbs := false, comps := [[111, 117, 116]] }
        { isAbs := true, comps := [[101, 118, 105, 108]] } := by
  refine ⟨by decide, by decide, by decide⟩

/-- C5 witness: a one-entry list whose entry is named "..". -/
theorem c5_parent_dir_rejection_witness :
    (unpackAssets [] [] (fun _ _ => none) { isAbs := false, comps := [[111, 117, 116]] } 0
        [{ name := [46, 46], size_decompressed := 1, size_compressed := 0, offset := 0,
           plaintext_crc32 := 0, ciphertext_crc32 := 0 }]).err.isSome = true ∧
    ∀ w ∈ (unpackAssets [] [] (fun _ _ => none)
        { isAbs := false, comps := [[111, 117, 116]] } 0
        [{ name := [46, 46], size_decompressed := 1, size_compressed := 0, offset := 0,
           plaintext_crc32 := 0, ciphertext_crc32 := 0 }]).writes,
      ∃ b, b ∈ ([] : List PakAssetM) ∧
        processOneAsset [] [] (fun _ _ => none)
          { isAbs := false, comps := [[111, 117, 116]] } 0 b = Except.ok w ∧
        hasParentDir (pathOfName b.name) = false ∧
        w.1 = joinPath { isAbs := false, comps := [[111, 117, 116]] } (pathOfName b.name) ∧
        ((pathOfName b.name).isAbs = false →
          underRoot { isAbs := false, comps := [[111, 117, 116]] } w.1) :=
  c5_parent_dir_rejection [] [] (fun _ _ => none)
    { isAbs := false, comps := [[111, 117, 116]] } 0 [] []
    { name := [46, 46], size_decompressed := 1, size_compressed := 0, offset := 0,
      plaintext_crc32 := 0, ciphertext_crc32 := 0 } (by decide)

/-! ### C9: decode never verifies the stored checksums -/

/-- An asset with its two checksum fields cleared. -/
def stripAssetCrcs (a : PakAssetM) : PakAssetM :=
  { a with plaintext_crc32 := 0, ciphertext_crc32 := 0 }

/-- A header with its three checksum fields cleared. -/
def stripHeaderCrcs (h : PakHeaderM) : PakHeaderM :=
  { h with crc32 := 0, plaintext_crc32 := 0, ciphertext_crc32 := 0 }

/-- readSlice beyond a common offset only depends on the length and
the bytes from that offset on. -/
theorem readSlice_congr (f1 f2 : List Nat) (base : Nat) (hlen : f1.length = f2.length)
    (hdrop : f1.drop base = f2.drop base) (off size : Nat) :
    readSlice f1 (base + off) size = readSlice f2 (base + off) size := by
  have hkey : ∀ g : List Nat, g.drop (base + off) = (g.drop base).drop off := by
    intro g
    rw [List.drop_drop]
  unfold readSlice
  rw [hlen, hkey f1, hkey f2, hdrop]

/-- processOneAsset ignores the checksum fields of its asset and the
file bytes before the payload base. -/
theorem processOneAsset_congr (f1 f2 key : List Nat)
    (dcA : List Nat → Nat → Option (List Nat)) (root : PathM) (base : Nat)
    (a1 a2 : PakAssetM) (hstrip : stripAssetCrcs a1 = stripAssetCrcs a2)
    (hlen : f1.length = f2.length) (hdrop : f1.drop base = f2.drop base) :
    processOneAsset f1 key dcA root base a1 = processOneAsset f2 key dcA root base a2 := by
  have hname0 := congrArg PakAssetM.name hstrip
  have hsd0 := congrArg PakAssetM.size_decompressed hstrip
  have hsc0 := congrArg PakAssetM.size_compressed hstrip
  have hoff0 := congrArg PakAssetM.offset hstrip
  have hname : a1.name = a2.name := hname0
  have hsd : a1.size_decompressed = a2.size_decompressed := hsd0
  have hsc : a1.size_compressed = a2.size_compressed := hsc0
  have hoff : a1.offset = a2.offset := hoff0
  unfold processOneAsset
  rw [hname, hsd, hsc, hoff]
  have hdfr : decrypt_from_reader f1 a2.name (base + a2.offset) a2.size_compressed key =
      decrypt_from_reader f2 a2.name (base + a2.offset) a2.size_compressed key := by
    unfold decrypt_from_reader
    rw [readSlice_congr f1 f2 base hlen hdrop a2.offset a2.size_compressed]
  rw [hdfr]

/-- The unpack loop ignores the checksum fields of the assets and the
file bytes before the payload base. -/
theorem unpackAssets_congr (f1 f2 key : List Nat)
    (dcA : List Nat → Nat → Option (List Nat)) (root : PathM) (base : Nat)
    (hlen : f1.length = f2.length) (hdrop : f1.drop base = f2.drop base) :
    ∀ (l1 l2 : List PakAssetM), l1.map stripAssetCrcs = l2.map stripAssetCrcs →
      unpackAssets f1 key dcA root base l1 = unpackAssets f2 key dcA root base l2 := by
  intro l1
  induction l1 with
  | nil =>
    intro l2 hmap
    cases l2 with
    | nil => rfl
    | cons b t2 => exact absurd hmap (by simp)
  | cons a t ih =>
    intro l2 hmap
    cases l2 with
    | nil => exact absurd hmap (by simp)
    | cons b t2 =>
      rw [List.map_cons, List.map_cons] at hmap
      obtain ⟨hab, ht⟩ := List.cons.inj hmap
      show (match processOneAsset f1 key dcA root base a with
        | Except.error e => ({ writes := [], err := some e } : UnpackResult)
        | Except.ok wb =>
          { writes := wb :: (unpackAssets f1 key dcA root base t).writes,
            err := (unpackAssets f1 key dcA root base t).err }) =
        (match processOneAsset f2 key dcA root base b with
        | Except.error e => ({ writes := [], err := some e } : UnpackResult)
        | Except.ok wb =>
          { writes := wb :: (unpackAssets f2 key dcA root base t2).writes,
            err := (unpackAssets f2 key dcA root base t2).err })
      rw [processOneAsset_congr f1 f2 key dcA root base a b hab hlen hdrop, ih t2 ht]

/-- C9 (amended): decode never verifies the stored checksum fields:
two containers of equal length that parse to headers equal outside
their checksum fields, agree byte-for-byte from the end of the index
region on, and whose indexes decode to the same outcome up to the
entries' checksum fields, unpack identically — same writes, same
error.  (The error enumeration of the original claim is amended by the
counterexample: decode also rejects truncated reads, invalid-UTF-8
names, parent-directory names and rootless joins.) -/
theorem c9_checksums_not_verified (c1 c2 key : List Nat)
    (dcIdx dcA : List Nat → Nat → Option (List Nat)) (root : PathM)
    (h1 h2 : PakHeaderM)
    (hp1 : parseHeader c1 = Except.ok h1) (hp2 : parseHeader c2 = Except.ok h2)
    (hh : stripHeaderCrcs h1 = stripHeaderCrcs h2)
    (hlen : c1.length = c2.length)
    (hdrop : c1.drop (PAK_HEADER_SIZE + h1.assets_list_size_compressed) =
      c2.drop (PAK_HEADER_SIZE + h2.assets_list_size_compressed))
    (hidx : (∃ e, decodeIndex c1 key dcIdx h1 = Except.error e ∧
        decodeIndex c2 key dcIdx h2 = Except.error e) ∨
      (∃ l1 l2, decodeIndex c1 key dcIdx h1 = Except.ok l1 ∧
        decodeIndex c2 key dcIdx h2 = Except.ok l2 ∧
        l1.map stripAssetCrcs = l2.map stripAssetCrcs)) :
    unpack c1 key dcIdx dcA root = unpack c2 key dcIdx dcA root := by
  have hv0 := congrArg PakHeaderM.version hh
  have hv : h1.version = h2.version := hv0
  have hc0 := congrArg PakHeaderM.assets_list_size_compressed hh
  have hc : h1.assets_list_size_compressed = h2.assets_list_size_compressed := hc0
  rw [← hc] at hdrop
  unfold unpack
  rw [hp1, hp2]
  show (if h1.version ≠ FILE_VERSION then
      ({ writes := [], err := some (UnpackError.badVersion h1.version) } : UnpackResult)
    else match decodeIndex c1 key dcIdx h1 with
      | Except.error e => { writes := [], err := some e }
      | Except.ok assets =>
        unpackAssets c1 key dcA root (PAK_HEADER_SIZE + h1.assets_list_size_compressed) assets) =
    (if h2.version ≠ FILE_VERSION then
      { writes := [], err := some (UnpackError.badVersion h2.version) }
    else match decodeIndex c2 key dcIdx h2 with
      | Except.error e => { writes := [], err := some e }
      | Except.ok assets =>
        unpackAssets c2 key dcA root (PAK_HEADER_SIZE + h2.assets_list_size_compressed) assets)
  rw [← hv, ← hc]
  by_cases hver : h1.version ≠ FILE_VERSION
  · rw [if_pos hver, if_pos hver]
  · rw [if_neg hver, if_neg hver]
    rcases hidx with ⟨e, he1, he2⟩ | ⟨l1, l2, hl1, hl2, hmap⟩
    · rw [he1, he2]
    · rw [hl1, hl2]
      show unpackAssets c1 key dcA root (PAK_HEADER_SIZE + h1.assets_list_size_compressed) l1 =
        unpackAssets c2 key dcA root (PAK_HEADER_SIZE + h1.assets_list_size_compressed) l2
      exact unpackAssets_congr c1 c2 key dcA root
        (PAK_HEADER_SIZE + h1.assets_list_size_compressed) hlen hdrop l1 l2 hmap

/-- C9 counterexample to the original error enumeration: a container
whose single entry is named with the invalid UTF-8 byte 0xff is
rejected with a bad-name error, which is none of a bad magic, a bad
version, malformed records, or a decompression (size-mismatch)
failure. -/
theorem c9_checksums_not_verified_counterexample :
    (unpack
      (headerBytes
        { version := 103, crc32 := 0, unk0c := 1, timestamp := 0,
          assets_list_size_decompressed := 1, assets_list_size_compressed := 0,
          plaintext_crc32 := 0, ciphertext_crc32 := 0 })
      TEST_KEY
      (fun _ _ => some (serializePakAssets
        [{ name := [255], size_decompressed := 1, size_compressed := 0, offset := 0,
           plaintext_crc32 := 0, ciphertext_crc32 := 0 }]))
      (fun _ _ => some [120]) { isAbs := false, comps := [[111, 117, 116]] } =
      { writes := [], err := some UnpackError.badName }) ∧
    UnpackError.badName ≠ UnpackError.badMagic ∧
    (∀ v, UnpackError.badName ≠ UnpackError.badVersion v) ∧
    UnpackError.badName ≠ UnpackError.malformed ∧
    UnpackError.badName ≠ UnpackError.decompressFail :=
  ⟨by decide, by decide, fun v h => UnpackError.noConfusion h, by decide, by decide⟩

/-- C9 witness: two 40-byte containers that differ exactly in the
header's three checksum fields unpack identically. -/
theorem c9_checksums_not_verified_witness :
    unpack
      (headerBytes
        { version := 103, crc32 := 0, unk0c := 1, timestamp := 0,
          assets_list_size_decompressed := 1, assets_list_size_compressed := 0,
          plaintext_crc32 := 0, ciphertext_crc32 := 0 })
      TEST_KEY
      (fun _ _ => some (serializePakAssets
        [{ name := [97], size_decompressed := 1, size_compressed := 0, offset := 0,
           plaintext_crc32 := 0, ciphertext_crc32 := 0 }]))
      (fun _ _ => some [120]) { isAbs := false, comps := [[111, 117, 116]] } =
    unpack
      (headerBytes
        { version := 103, crc32 := 7, unk0c := 1, timestamp := 0,
          assets_list_size_decompressed := 1, assets_list_size_compressed := 0,
          plaintext_crc32 := 9, ciphertext_crc32 := 11 })
      TEST_KEY
      (fun _ _ => some (serializePakAssets
        [{ name := [97], size_decompressed := 1, size_compressed := 0, offset := 0,
           plaintext_crc32 := 0, ciphertext_crc32 := 0 }]))
      (fun _ _ => some [120]) { isAbs := false, comps := [[111, 117, 116]] } :=
  c9_checksums_not_verified
    (headerBytes
      { version := 103, crc32 := 0, unk0c := 1, timestamp := 0,
        assets_list_size_decompressed := 1, assets_list_size_compressed := 0,
        plaintext_crc32 := 0, ciphertext_crc32 := 0 })
    (headerBytes
      { version := 103, crc32 := 7, unk0c := 1, timestamp := 0,
        assets_list_size_decompressed := 1, assets_list_size_compressed := 0,
        plaintext_crc32 := 9, ciphertext_crc32 := 11 })
    TEST_KEY
    (fun _ _ => some (serializePakAssets
      [{ name := [97], size_decompressed := 1, size_compressed := 0, offset := 0,
         plaintext_crc32 := 0, ciphertext_crc32 := 0 }]))
    (fun _ _ => some [120]) { isAbs := false, comps := [[111, 117, 116]] }
    { version := 103, crc32 := 0, unk0c := 1, timestamp := 0,
      assets_list_size_decompressed := 1, assets_list_size_compressed := 0,
      plaintext_crc32 := 0, ciphertext_crc32 := 0 }
    { version := 103, crc32 := 7, unk0c := 1, timestamp := 0,
      assets_list_size_decompressed := 1, assets_list_size_compressed := 0,
      plaintext_crc32 := 9, ciphertext_crc32 := 11 }
    rfl rfl rfl rfl rfl
    (Or.inr
      ⟨[{ name := [97], size_decompressed := 1, size_compressed := 0, offset := 0,
          plaintext_crc32 := 0, ciphertext_crc32 := 0 }],
       [{ name := [97], size_decompressed := 1, size_compressed := 0, offset := 0,
          plaintext_crc32 := 0, ciphertext_crc32 := 0 }],
       rfl, rfl, rfl⟩)
